import Mathlib

/-!
# Formal model of the tiny-sg entity/relationship store

This file gives a shallow embedding, in Lean 4, of the core of the
tiny-sg repository (src/tinysg): the field value engine (fields.py),
the pivot-table middleware (middleware.py), the filter evaluator
(filters.py) and the CRUD facade (connection.py), together with
theorems settling the frozen claims about that code.

Modelling conventions:

* Python values are modelled by `Prim` (scalars), `Dict` (flat
  string-keyed dictionaries, e.g. entity handles) and `Value`
  (a scalar, a dictionary, or a list of scalars/dictionaries).
  This is exactly the nesting depth the store reads and writes:
  record fields hold scalars, handles, lists of handles or lists of
  strings.  Dates and datetimes are modelled structurally; the wall
  clock (utils.today / utils.now) is passed as an explicit parameter
  where the source consults it.
* Python dictionaries are assoc lists in insertion order; `d[k] = v`
  replaces in place or appends, `d.pop(k, None)` removes, equality is
  order-insensitive map equality (`dictEq`), truthiness is
  non-emptiness.  Tables are keyed by `str(id)` as in the JSON file.
* The reserved tables `_schema` and `_fields` are modelled as typed
  lists (`List String` of entity types, `List FieldSpec`), mirroring
  the dictionaries those tables hold.
* Exceptions are modelled with `Except Err`; each `Err` constructor
  corresponds to the Python exception class raised by the source.
-/

set_option maxRecDepth 10000

namespace TinySG

/-- Python scalar values. -/
inductive Prim where
  | pnone
  | pbool (b : Bool)
  | pint (n : Int)
  | pfloat (q : Rat)
  | pstr (s : String)
  | pdate (y m d : Int)
  | pdatetime (y m d hh mi ss : Int)
deriving Repr, DecidableEq

/-- A flat Python dictionary with scalar values (e.g. an entity handle). -/
abbrev Dict := List (String × Prim)

/-- An element of a Python list value: a scalar or a flat dictionary. -/
inductive Item where
  | iprim (p : Prim)
  | idict (d : Dict)
deriving Repr, DecidableEq

/-- A Python value as stored in a record field or used in a filter. -/
inductive Value where
  | vprim (p : Prim)
  | vdict (d : Dict)
  | vlist (xs : List Item)
deriving Repr, DecidableEq

/-- Shorthand for string scalars. -/
def Value.str (s : String) : Value := .vprim (.pstr s)

/-- Shorthand for integer scalars. -/
def Value.int (n : Int) : Value := .vprim (.pint n)

/-- Python `d.get(k)` on an assoc-list dictionary. -/
def alGet (k : String) : List (String × α) → Option α
  | [] => none
  | (k2, v) :: rest => if k2 = k then some v else alGet k rest

/-- Python `k in d`. -/
def alHasKey (k : String) (d : List (String × α)) : Bool :=
  (alGet k d).isSome

/-- Python `d[k] = v`: replace in place if the key exists, else append. -/
def alSet (k : String) (v : α) : List (String × α) → List (String × α)
  | [] => [(k, v)]
  | (k2, w) :: rest => if k2 = k then (k2, v) :: rest else (k2, w) :: alSet k v rest

/-- Python `d.pop(k, None)`: drop the entry with the given key, if present. -/
def alPop (k : String) : List (String × α) → List (String × α)
  | [] => []
  | (k2, w) :: rest => if k2 = k then rest else (k2, w) :: alPop k rest

/-- Code-point lexicographic comparison of character lists. -/
def charListLt : List Char → List Char → Bool
  | [], [] => false
  | [], _ :: _ => true
  | _ :: _, [] => false
  | a :: as, b :: bs =>
      if a.toNat < b.toNat then true
      else if b.toNat < a.toNat then false
      else charListLt as bs

/-- Python string `<` (code-point lexicographic order). -/
def strLt (a b : String) : Bool := charListLt a.data b.data

/-- Python truthiness of a scalar. -/
def Prim.truthy : Prim → Bool
  | .pnone => false
  | .pbool b => b
  | .pint n => n != 0
  | .pfloat q => q != 0
  | .pstr s => s != ""
  | .pdate _ _ _ => true
  | .pdatetime _ _ _ _ _ _ => true

/-- Python truthiness of a value (dictionaries/lists: non-emptiness). -/
def Value.truthy : Value → Bool
  | .vprim p => p.truthy
  | .vdict d => !d.isEmpty
  | .vlist xs => !xs.isEmpty

/-- Python `==` on scalars, including the numeric tower
(`True == 1`, `1 == 1.0`). -/
def primEq (a b : Prim) : Bool :=
  match a, b with
  | .pnone, .pnone => true
  | .pbool x, .pbool y => x == y
  | .pbool x, .pint n => (if x then (1 : Int) else 0) == n
  | .pint n, .pbool y => n == (if y then (1 : Int) else 0)
  | .pbool x, .pfloat q => (if x then (1 : Rat) else 0) == q
  | .pfloat q, .pbool y => q == (if y then (1 : Rat) else 0)
  | .pint n, .pint m => n == m
  | .pint n, .pfloat q => (n : Rat) == q
  | .pfloat q, .pint n => q == (n : Rat)
  | .pfloat q, .pfloat r => q == r
  | .pstr s, .pstr t => s == t
  | .pdate y m d, .pdate y2 m2 d2 => y == y2 && m == m2 && d == d2
  | .pdatetime y m d h mi s, .pdatetime y2 m2 d2 h2 mi2 s2 =>
      y == y2 && m == m2 && d == d2 && h == h2 && mi == mi2 && s == s2
  | _, _ => false

/-- One-sided inclusion of dictionaries under Python `==` on values. -/
def dictLe (a b : Dict) : Bool :=
  a.all fun kv =>
    match alGet kv.1 b with
    | some w => primEq kv.2 w
    | none => false

/-- Python `==` on (duplicate-free) dictionaries: same size, pointwise equal. -/
def dictEq (a b : Dict) : Bool :=
  a.length == b.length && dictLe a b

/-- Python `==` on list elements. -/
def itemEq : Item → Item → Bool
  | .iprim p, .iprim q => primEq p q
  | .idict d, .idict e => dictEq d e
  | _, _ => false

/-- Python `==` on values. -/
def pyEq : Value → Value → Bool
  | .vprim p, .vprim q => primEq p q
  | .vdict d, .vdict e => dictEq d e
  | .vlist xs, .vlist ys =>
      xs.length == ys.length && (xs.zip ys).all fun p => itemEq p.1 p.2
  | _, _ => false

/-- The exception classes raised by the source
(tinysg.exceptions plus the built-in Python exceptions it can hit). -/
inductive Err where
  | schemaError (msg : String)
  | entityNotFound (msg : String)
  | filterSpecError (msg : String)
  | valueError (msg : String)
  | keyError (msg : String)
  | typeError (msg : String)
  | attributeError (msg : String)
  | recursionError
deriving Repr, DecidableEq

/-- utils.as_key: the `(entity["type"], entity["id"])` tuple of a handle
dictionary; raises KeyError when a key is missing. -/
def as_key (d : Dict) : Except Err (Prim × Prim) :=
  match alGet "type" d, alGet "id" d with
  | some t, some i => .ok (t, i)
  | none, _ => .error (.keyError "type")
  | _, none => .error (.keyError "id")

/-- Python `==` on `(type, id)` key tuples. -/
def keyEq (a b : Prim × Prim) : Bool :=
  primEq a.1 b.1 && primEq a.2 b.2

/-- entity.as_handle / entity.eq use dictionaries `{type, id}`;
this builds one in the key order `{"type": t, "id": n}`. -/
def hndl (t : String) (n : Int) : Dict :=
  [("type", .pstr t), ("id", .pint n)]

/-- `collections.OrderedDict` keyed by Python `(type, id)` tuples:
`links[k] = v` keeps the position of an existing key. -/
def odSet (k : Prim × Prim) (v : Dict) : List ((Prim × Prim) × Dict) → List ((Prim × Prim) × Dict)
  | [] => [(k, v)]
  | (k2, w) :: rest => if keyEq k2 k then (k2, v) :: rest else (k2, w) :: odSet k v rest

/-- `links.pop(k, None)` on the ordered dictionary. -/
def odPop (k : Prim × Prim) : List ((Prim × Prim) × Dict) → List ((Prim × Prim) × Dict)
  | [] => []
  | (k2, w) :: rest => if keyEq k2 k then rest else (k2, w) :: odPop k rest

/-- Insert each entry of a list into the ordered dictionary in turn
(`for each in values: links[as_key(each)] = each`). -/
def odInsertAll (init : List ((Prim × Prim) × Dict)) :
    List Dict → Except Err (List ((Prim × Prim) × Dict))
  | [] => .ok init
  | e :: rest => do
      let k ← as_key e
      odInsertAll (odSet k e init) rest

/-- Remove each entry of a list from the ordered dictionary in turn
(`for each in values: links.pop(as_key(each), None)`). -/
def odPopAll (init : List ((Prim × Prim) × Dict)) :
    List Dict → Except Err (List ((Prim × Prim) × Dict))
  | [] => .ok init
  | e :: rest => do
      let k ← as_key e
      odPopAll (odPop k init) rest

/-- fields.update_multi_entity_field: the new value of a multi-entity
link field for the given old values, update values, and update mode
(`None` and the empty string default to `"set"`). -/
def update_multi_entity_field (old_values new_values : List Dict)
    (update_mode : Option String) : Except Err (List Dict) := do
  let mode := match update_mode with
    | none => "set"
    | some m => if m = "" then "set" else m
  let links ← odInsertAll [] old_values
  let links ←
    if mode = "add" then
      odInsertAll links new_values
    else if mode = "set" then
      odInsertAll [] new_values
    else if mode = "remove" then
      odPopAll links new_values
    else
      .error (.valueError ("Unsupported update mode: " ++ mode ++ "."))
  .ok (links.map (·.2))

/-- A row of the `_fields` table / a field-properties dictionary.
Optional properties are `Option`s so that the Python `"key" in d` and
`d.get(key)` distinctions are representable; `link` is conformed to a
list as by fields.conform_spec, with `[]` standing for an absent or
empty (both falsy) `link` property. -/
structure FieldSpec where
  entity_type : String := ""
  name : String := ""
  ftype : Option String := none
  link : List String := []
  link_field : List (String × String) := []
  table : Option String := none
  dflt : Option Value := none
  required : Bool := false
  identifier : Bool := false
  values : Option (List Prim) := none
deriving Repr, DecidableEq

/-- `", ".join(each.value for each in FieldType)` in declaration order. -/
def dataTypesStr : String :=
  "bool, date, date_time, entity, enum, float, json, multi_entity, number, text, textList"

/-- Python `needle in hay` on strings (substring test). -/
def strContainsSub (hay needle : String) : Bool :=
  hay.toList.tails.any fun t => needle.toList.isPrefixOf t

/-- fields._field_type: the declared type of a field spec.  Note the
source checks membership with `data_type not in data_types` where
`data_types` is the joined *string*, i.e. a substring test. -/
def field_type (spec : FieldSpec) : Except Err String :=
  match spec.ftype with
  | none =>
      .error (.valueError ("Field properties must include type - " ++ dataTypesStr ++ "."))
  | some dt =>
      if !strContainsSub dataTypesStr dt then
        .error (.valueError ("Invalid data type " ++ dt ++ " - expected " ++ dataTypesStr ++ "."))
      else
        .ok dt

/-- fields._validate_bool: `properties.get("default", False)` must be a bool. -/
def validate_bool (p : FieldSpec) : Except Err Unit :=
  match p.dflt with
  | none => .ok ()
  | some (.vprim (.pbool _)) => .ok ()
  | some _ => .error (.valueError "Default value for a bool field must be True/False")

/-- fields._validate_date: the default must be a bool (a use-today flag). -/
def validate_date (p : FieldSpec) : Except Err Unit :=
  match p.dflt with
  | none => .ok ()
  | some (.vprim (.pbool _)) => .ok ()
  | some _ => .error (.valueError "Default value for a date field must be True/False")

/-- fields._validate_datetime: the default must be a bool (a use-now flag). -/
def validate_datetime (p : FieldSpec) : Except Err Unit :=
  match p.dflt with
  | none => .ok ()
  | some (.vprim (.pbool _)) => .ok ()
  | some _ => .error (.valueError "Default value for a datetime field must be True/False")

/-- fields._validate_entity: a truthy `link` is required, a default forbidden. -/
def validate_entity (p : FieldSpec) : Except Err Unit :=
  if p.link.isEmpty then
    .error (.valueError "Must specify link entity type list for an entity field.")
  else if p.dflt.isSome then
    .error (.valueError "An entity field cannot have a default.")
  else
    .ok ()

/-- fields._validate_enum: a `values` key is required; a declared
*truthy* default must be a member of `values`. -/
def validate_enum (p : FieldSpec) : Except Err Unit :=
  match p.values with
  | none => .error (.valueError "Must specify values list for an enum field.")
  | some vs =>
      match p.dflt with
      | none => .ok ()
      | some d =>
          if d.truthy && !(vs.any fun v => pyEq d (.vprim v)) then
            .error (.valueError "Enum field default is not one of its allowed values")
          else
            .ok ()

/-- fields._validate_float: `isinstance(default, (int, float))`
(which in Python also admits bools). -/
def validate_float (p : FieldSpec) : Except Err Unit :=
  match p.dflt with
  | none => .ok ()
  | some (.vprim (.pbool _)) => .ok ()
  | some (.vprim (.pint _)) => .ok ()
  | some (.vprim (.pfloat _)) => .ok ()
  | some _ => .error (.valueError "Default value for a float field must be a float.")

/-- fields._validate_json: a default is forbidden. -/
def validate_json (p : FieldSpec) : Except Err Unit :=
  if p.dflt.isSome then
    .error (.valueError "A JSON field cannot have a default.")
  else
    .ok ()

/-- fields._validate_multi_entity: a truthy `link` is required, a default forbidden. -/
def validate_multi_entity (p : FieldSpec) : Except Err Unit :=
  if p.link.isEmpty then
    .error (.valueError "Must specify link entity type for a multi-entity field.")
  else if p.dflt.isSome then
    .error (.valueError "A multi-entity field cannot have a default.")
  else
    .ok ()

/-- fields._validate_number: `isinstance(default, int)`
(which in Python also admits bools). -/
def validate_number (p : FieldSpec) : Except Err Unit :=
  match p.dflt with
  | none => .ok ()
  | some (.vprim (.pbool _)) => .ok ()
  | some (.vprim (.pint _)) => .ok ()
  | some _ => .error (.valueError "Must specify a valid default for a number field.")

/-- fields._validate_text: a default is forbidden. -/
def validate_text (p : FieldSpec) : Except Err Unit :=
  if p.dflt.isSome then
    .error (.valueError "A text field cannot have a default.")
  else
    .ok ()

/-- fields._validate_text_list: a default is forbidden. -/
def validate_text_list (p : FieldSpec) : Except Err Unit :=
  if p.dflt.isSome then
    .error (.valueError "A text list field cannot have a default.")
  else
    .ok ()

/-- fields.validate_spec: check the declared type, then dispatch on it
through `_VALIDATOR_FUNC` (an exact-key lookup; a type that passed the
substring test of `_field_type` but is not an exact key raises KeyError). -/
def validate_spec (p : FieldSpec) : Except Err Unit := do
  let dt ← field_type p
  match dt with
  | "bool" => validate_bool p
  | "date" => validate_date p
  | "date_time" => validate_datetime p
  | "entity" => validate_entity p
  | "enum" => validate_enum p
  | "float" => validate_float p
  | "json" => validate_json p
  | "multi_entity" => validate_multi_entity p
  | "number" => validate_number p
  | "text" => validate_text p
  | "textList" => validate_text_list p
  | other => .error (.keyError other)

/-- The reading of claim C9, written from the words of the spec
("enum requires a nonempty values list; a declared default must be a
member"), to be compared with `validate_spec`. -/
def enumSpecOkClaimed (p : FieldSpec) : Bool :=
  match p.values with
  | none => false
  | some vs =>
      !vs.isEmpty &&
        (match p.dflt with
         | none => true
         | some d => vs.any fun v => pyEq d (.vprim v))

/-- An entity record in the cache: field name to value, in insertion order. -/
abbrev Rec := List (String × Value)

/-- A database table: `str(id)` keys to records, in insertion order. -/
abbrev Table := List (String × Rec)

/-- The raw database contents: table name to table. -/
abbrev Data := List (String × Table)

/-- fields.is_entity. -/
def is_entity (f : FieldSpec) : Bool := f.ftype == some "entity"

/-- fields.is_multi_entity. -/
def is_multi_entity (f : FieldSpec) : Bool := f.ftype == some "multi_entity"

/-- fields.is_link. -/
def is_link (f : FieldSpec) : Bool := is_entity f || is_multi_entity f

/-- PivotTableMiddleware._this_key: `"{entity_type}.{name}"`. -/
def this_key (f : FieldSpec) : String := f.entity_type ++ "." ++ f.name

/-- PivotTableMiddleware._link_keys: for each permissible link type,
`"<type>.<reverse field>"` when a `link_field` entry exists, else the
bare type name. -/
def link_keys (f : FieldSpec) : List (String × String) :=
  f.link.map fun lt =>
    match alGet lt f.link_field with
    | some g => (lt, lt ++ "." ++ g)
    | none => (lt, lt)

/-- A relation row: the `frozendict` written to a pivot table, held in
a canonical key-sorted form so that structural equality matches
`frozendict` (map) equality. -/
abbrev Row := List (String × Prim)

/-- Insert an entry into a key-sorted row. -/
def rowInsertEntry (e : String × Prim) : Row → Row
  | [] => [e]
  | f :: rest => if strLt f.1 e.1 then f :: rowInsertEntry e rest else e :: f :: rest

/-- Build the canonical form of `frozendict({link_key: link_id, this_key: this_id})`
(the second insertion overwriting the first when the keys collide). -/
def mkRow (linkKey : String) (linkVal : Prim) (thisKey : String) (thisVal : Prim) : Row :=
  (alSet thisKey thisVal (alSet linkKey linkVal [])).foldr rowInsertEntry []

/-- Python `==` of two relation rows (map equality). -/
def rowEq (a b : Row) : Bool :=
  a.length == b.length &&
    a.all fun kv =>
      match alGet kv.1 b with
      | some w => primEq kv.2 w
      | none => false

/-- `set.add` on a list of rows under `rowEq`. -/
def rowSetAdd (rs : List Row) (r : Row) : List Row :=
  if rs.any (rowEq r) then rs else rs ++ [r]

/-- The `link_tables` accumulator of PivotTableMiddleware.write:
table name to set of rows. -/
abbrev LinkTables := List (String × List Row)

/-- `link_tables[field["table"]].add(link_dict)`. -/
def ltAdd (lt : LinkTables) (t : String) (r : Row) : LinkTables :=
  match alGet t lt with
  | some rs => alSet t (rowSetAdd rs r) lt
  | none => lt ++ [(t, rowSetAdd [] r)]

/-- The truthy dictionaries among the items of a multi-entity value
(`[link for link in links if link]`); a truthy scalar item is the
Python TypeError of the later subscripting. -/
def itemsToDicts (acc : List Dict) : List Item → Except Err (List Dict)
  | [] => .ok acc
  | .idict d :: rest =>
      if !d.isEmpty then itemsToDicts (acc ++ [d]) rest else itemsToDicts acc rest
  | .iprim p :: rest =>
      if p.truthy then .error (.typeError "link value is not a dict")
      else itemsToDicts acc rest

/-- The truthy link dictionaries held by one link field of a record:
`[entity.get(name)]` for an entity field, `entity.get(name) or []` for
a multi-entity field, then `[link for link in links if link]`.  A
truthy value that is not a (list of) dictionary(ies) is the Python
TypeError of the later subscripting. -/
def fieldLinkDicts (e : Rec) (f : FieldSpec) : Except Err (List Dict) :=
  if is_entity f then
    match alGet f.name e with
    | none => .ok []
    | some v =>
        if v.truthy then
          match v with
          | .vdict d => .ok [d]
          | _ => .error (.typeError "link value is not a dict")
        else
          .ok []
  else
    match alGet f.name e with
    | none => .ok []
    | some v =>
        if v.truthy then
          match v with
          | .vlist xs => itemsToDicts [] xs
          | _ => .error (.typeError "link value is not a list")
        else
          .ok []

/-- The relation row emitted for one link dictionary of one field of
one record: `{link_key: link["id"], this_key: entity["id"]}`. -/
def rowOfLink (f : FieldSpec) (thisId : Prim) (d : Dict) : Except Err Row := do
  let tp ← match alGet "type" d with
    | some p => .ok p
    | none => .error (.keyError "type")
  let lk ← match tp with
    | .pstr s =>
        match alGet s (link_keys f) with
        | some k => .ok k
        | none => .error (.keyError s)
    | _ => .error (.keyError "link type")
  let li ← match alGet "id" d with
    | some p => .ok p
    | none => .error (.keyError "id")
  .ok (mkRow lk li (this_key f) thisId)

/-- Emit one row per link dictionary into the accumulator
(`for link in links: ... link_tables[field["table"]].add(link_dict)`). -/
def emitRowsLoop (f : FieldSpec) (tbl : String) (thisId : Prim) (lt : LinkTables) :
    List Dict → Except Err LinkTables
  | [] => .ok lt
  | d :: rest => do
      let r ← rowOfLink f thisId d
      emitRowsLoop f tbl thisId (ltAdd lt tbl r) rest

/-- Add the rows of one link field of one record to the accumulator. -/
def emitFieldRows (e : Rec) (f : FieldSpec) (lt : LinkTables) : Except Err LinkTables := do
  let tbl ← match f.table with
    | some t => .ok t
    | none => .error (.keyError "table")
  let thisId ← match alGet "id" e with
    | some (.vprim p) => .ok p
    | some _ => .error (.typeError "id")
    | none => .error (.keyError "id")
  let ds ← fieldLinkDicts e f
  emitRowsLoop f tbl thisId lt ds

/-- `entity.pop(field_name, None)` over the drop list. -/
def stripRec (dropNames : List String) (e : Rec) : Rec :=
  dropNames.foldl (fun acc n => alPop n acc) e

/-- Emit the rows of every link field of one record in turn. -/
def entityFieldsLoop (e : Rec) (lt : LinkTables) :
    List FieldSpec → Except Err LinkTables
  | [] => .ok lt
  | f :: rest => do
      let lt2 ← emitFieldRows e f lt
      entityFieldsLoop e lt2 rest

/-- Process one record of an active table on write: emit the rows of
every link field, then strip the id/type/link fields; a falsy (empty)
record is skipped whole. -/
def writeEntity (linkFields : List FieldSpec) (dropNames : List String) (e : Rec)
    (lt : LinkTables) : Except Err (Rec × LinkTables) := do
  if e.isEmpty then
    .ok (e, lt)
  else
    let lt2 ← entityFieldsLoop e lt linkFields
    .ok (stripRec dropNames e, lt2)

/-- The field specs of one entity type, in `_fields` order
(the `fields[entity_type]` grouping of the middleware). -/
def fieldsOf (fields : List FieldSpec) (t : String) : List FieldSpec :=
  fields.filter fun f => f.entity_type = t

/-- Walk the records of one active table on write. -/
def writeTableLoop (linkFields : List FieldSpec) (dropNames : List String) :
    Table → Table × LinkTables → Except Err (Table × LinkTables)
  | [], acc => .ok acc
  | ke :: rest, acc => do
      let (e2, lt2) ← writeEntity linkFields dropNames ke.2 acc.2
      writeTableLoop linkFields dropNames rest (acc.1 ++ [(ke.1, e2)], lt2)

/-- Process one active table on write. -/
def writeTable (fields : List FieldSpec) (t : String) (tbl : Table)
    (lt : LinkTables) : Except Err (Table × LinkTables) :=
  let linkFields := (fieldsOf fields t).filter is_link
  let dropNames := "id" :: "type" :: linkFields.map (·.name)
  writeTableLoop linkFields dropNames tbl (([] : Table), lt)

/-- Insertion sort of the collected link tables by table name
(`sorted(link_tables.items())`). -/
def ltSortInsert (e : String × List Row) : LinkTables → LinkTables
  | [] => [e]
  | f :: rest => if strLt f.1 e.1 then f :: ltSortInsert e rest else e :: f :: rest

/-- `sorted(link_tables.items())`. -/
def ltSorted (lt : LinkTables) : LinkTables :=
  lt.foldr ltSortInsert []

/-- A relation row as the record stored in the written data
(`{i: dict(link) for i, link in enumerate(links, 1)}`). -/
def rowToRec (r : Row) : Rec :=
  r.map fun kv => (kv.1, Value.vprim kv.2)

/-- The pivot table written for a set of rows, keys counting up from `i`. -/
def rowsToTableAux (i : Nat) : List Row → Table
  | [] => []
  | r :: rest => (toString i, rowToRec r) :: rowsToTableAux (i + 1) rest

/-- The pivot table written for a set of rows
(`{i: dict(link) for i, link in enumerate(links, 1)}`). -/
def rowsToTable (rs : List Row) : Table :=
  rowsToTableAux 1 rs

/-- One entity type of the main loop of PivotTableMiddleware.write:
walk the active table of the type, emitting rows and stripping records. -/
def writeStep (fields : List FieldSpec) (acc : Data × LinkTables) (t : String) :
    Except Err (Data × LinkTables) := do
  let tbl := (alGet t acc.1).getD []
  let (tbl2, lt2) ← writeTable fields t tbl acc.2
  let d2 := if alHasKey t acc.1 then alSet t tbl2 acc.1 else acc.1
  pure (d2, lt2)

/-- The main loop of PivotTableMiddleware.write: the stripped data and
the pivot tables collected from every active table of the schema. -/
def collectRows (schema : List String) (fields : List FieldSpec) (data : Data) :
    Except Err (Data × LinkTables) :=
  schema.foldlM (writeStep fields) (data, ([] : LinkTables))

/-- PivotTableMiddleware.write: for every entity type of the schema,
walk its *active* table, emit the relation rows derived from every
link field of every non-empty record, strip id/type/link fields from
those records, and finally store every collected pivot table (in
sorted name order) into the data. -/
def write (schema : List String) (fields : List FieldSpec) (data : Data) :
    Except Err Data := do
  let (data2, lt) ← collectRows schema fields data
  .ok ((ltSorted lt).foldl (fun d p => alSet p.1 (rowsToTable p.2) d) data2)

/-- Accumulate decimal digits (`int` parsing helper). -/
def digitsToNat (acc : Nat) : List Char → Option Nat
  | [] => some acc
  | c :: rest =>
      if c.isDigit then digitsToNat (acc * 10 + (c.toNat - 48)) rest else none

/-- Python `int(...)` on a string: an optional sign followed by decimal
digits. -/
def pyStrToInt (s : String) : Option Int :=
  match s.data with
  | [] => none
  | ['-'] => none
  | '-' :: c :: rest => (digitsToNat 0 (c :: rest)).map fun n => -(n : Int)
  | l => (digitsToNat 0 l).map fun n => (n : Int)

/-- Python `int(...)` on a value (ids in rows and table keys). -/
def pyInt (v : Value) : Except Err Int :=
  match v with
  | .vprim (.pint n) => .ok n
  | .vprim (.pbool b) => .ok (if b then 1 else 0)
  | .vprim (.pfloat q) => .ok (q.num / (q.den : Int))
  | .vprim (.pstr s) =>
      match pyStrToInt s with
      | some n => .ok n
      | none => .error (.valueError ("invalid literal for int: " ++ s))
  | _ => .error (.typeError "int() argument")

/-- The sort key `operator.itemgetter("id")` of a joined handle
(always an integer for handles built by the join). -/
def idKey (d : Dict) : Int :=
  match alGet "id" d with
  | some (.pint n) => n
  | _ => 0

/-- Stable insertion of a handle into an id-sorted list (later equal
ids keep their original relative order, as with Python list.sort). -/
def insById (d : Dict) : List Dict → List Dict
  | [] => [d]
  | e :: rest => if idKey e ≤ idKey d then e :: insById d rest else d :: e :: rest

/-- `links.sort(key=operator.itemgetter("id"))`. -/
def sortById (ds : List Dict) : List Dict :=
  ds.foldl (fun acc d => insById d acc) []

/-- The handles contributed by one relation row to the entity carrying
`this_key`, together with that entity id: one handle per link type
whose link key is present in the row (absent keys are skipped by the
`except KeyError: continue`). -/
def joinRowLinks (f : FieldSpec) (row : Rec) : Except Err (Int × List Dict) := do
  let tv ← match alGet (this_key f) row with
    | some v => .ok v
    | none => .error (.keyError (this_key f))
  let thisId ← pyInt tv
  let ds ←
    (link_keys f).foldlM
      (fun acc p =>
        match alGet p.2 row with
        | none => .ok acc
        | some v => do
            let n ← pyInt v
            .ok (acc ++ [hndl p.1 n]))
      ([] : List Dict)
  .ok (thisId, ds)

/-- `linked_entity_list[this_entity_id].append(link_entity)` on the
defaultdict, modelled as an insertion-ordered map. -/
def lmAdd (thisId : Int) (lm : List (Int × List Dict)) (d : Dict) :
    List (Int × List Dict) :=
  match lm.find? (fun q => q.1 = thisId) with
  | some _ => lm.map fun q => if q.1 = thisId then (q.1, q.2 ++ [d]) else q
  | none => lm ++ [(thisId, [d])]

/-- Walk the pivot-table rows building the `linked_entity_list` map. -/
def joinLinksMapLoop (f : FieldSpec) (lm : List (Int × List Dict)) :
    Table → Except Err (List (Int × List Dict))
  | [] => .ok lm
  | kr :: rest => do
      let (thisId, ds) ← joinRowLinks f kr.2
      joinLinksMapLoop f (ds.foldl (lmAdd thisId) lm) rest

/-- The `linked_entity_list` map of PivotTableMiddleware._join:
entity id to the handles found for it in the pivot table, in row order. -/
def joinLinksMap (f : FieldSpec) (linkTbl : Table) : Except Err (List (Int × List Dict)) :=
  joinLinksMapLoop f [] linkTbl

/-- Install the joined links into one record: a single-entity field
takes the first handle of the sorted list, a multi-entity field the
whole sorted list; entities with no row keep the field untouched. -/
def joinSetRec (f : FieldSpec) (lm : List (Int × List Dict)) (key : String) (e : Rec) :
    Except Err Rec := do
  let n ← match pyStrToInt key with
    | some n => .ok n
    | none => .error (.valueError ("invalid literal for int: " ++ key))
  match lm.find? (fun q => q.1 = n) with
  | none => .ok e
  | some q =>
      let links := sortById q.2
      if is_entity f then
        .ok (alSet f.name (match links.head? with
          | some d => .vdict d
          | none => .vprim .pnone) e)
      else if is_multi_entity f then
        .ok (alSet f.name (.vlist (links.map Item.idict)) e)
      else
        .ok e

/-- Walk the records of the joined entity type, installing links. -/
def joinTableLoop (f : FieldSpec) (lm : List (Int × List Dict)) (acc : Table) :
    Table → Except Err Table
  | [] => .ok acc
  | ke :: rest => do
      let e2 ← joinSetRec f lm ke.1 ke.2
      joinTableLoop f lm (acc ++ [(ke.1, e2)]) rest

/-- PivotTableMiddleware._join for one link field of one entity type. -/
def joinField (data : Data) (t : String) (f : FieldSpec) : Except Err Data := do
  let tname ← match f.table with
    | some s => .ok s
    | none => .error (.keyError "table")
  let linkTbl := (alGet tname data).getD []
  let lm ← joinLinksMap f linkTbl
  let thisTbl := (alGet t data).getD []
  let thisTbl2 ← joinTableLoop f lm [] thisTbl
  if alHasKey t data then
    .ok (alSet t thisTbl2 data)
  else
    .ok data

/-- Walk the records of one active table injecting `id`/`type`. -/
def injectIdsLoop (t : String) (retired : Table) (acc : Table) :
    Table → Except Err Table
  | [] => .ok acc
  | ke :: rest => do
      if alHasKey ke.1 retired then
        injectIdsLoop t retired (acc ++ [ke]) rest
      else
        let n ← match pyStrToInt ke.1 with
          | some n => .ok n
          | none => .error (.valueError ("invalid literal for int: " ++ ke.1))
        injectIdsLoop t retired
          (acc ++ [(ke.1, alSet "type" (Value.str t) (alSet "id" (Value.int n) ke.2))]) rest

/-- Inject `id`/`type` into the records of one active table on read,
skipping ids that also appear in the Retired table. -/
def injectIds (t : String) (data : Data) : Except Err Data := do
  let tbl := (alGet t data).getD []
  let retired := (alGet ("Retired:" ++ t) data).getD []
  let tbl2 ← injectIdsLoop t retired [] tbl
  if alHasKey t data then
    .ok (alSet t tbl2 data)
  else
    .ok data

/-- One link field of one entity type of the main loop of
PivotTableMiddleware.read: join it and remember its pivot table. -/
def readFieldStep (t : String) (acc : Data × List String) (f : FieldSpec) :
    Except Err (Data × List String) := do
  if is_link f then
    let d2 ← joinField acc.1 t f
    let tname ← match f.table with
      | some s => .ok s
      | none => .error (.keyError "table")
    pure (d2, if acc.2.contains tname then acc.2 else acc.2 ++ [tname])
  else
    pure acc

/-- One entity type of the main loop of PivotTableMiddleware.read. -/
def readStep (fields : List FieldSpec) (acc : Data × List String) (t : String) :
    Except Err (Data × List String) := do
  let d ← injectIds t acc.1
  (fieldsOf fields t).foldlM (readFieldStep t) (d, acc.2)

/-- PivotTableMiddleware.read: inject ids, join every link field of
every schema entity type from its pivot table, then drop the pivot
tables from the data. -/
def read (schema : List String) (fields : List FieldSpec) (data : Data) :
    Except Err Data := do
  let (data2, linkTbls) ←
    schema.foldlM (readStep fields) (data, ([] : List String))
  .ok (linkTbls.foldl (fun d t => alPop t d) data2)

/-- One durability cycle (ReadCachingMiddleware.flush): run the
pivot-normalizing write, then rematerialize with read. -/
def flushData (schema : List String) (fields : List FieldSpec) (data : Data) :
    Except Err Data := do
  let d ← write schema fields data
  read schema fields d

/-- The record of table `tname` at key `k` (empty record when absent);
a convenience accessor for stating concrete evaluations. -/
def recAt (d : Data) (tname k : String) : Rec :=
  (alGet k ((alGet tname d).getD [])).getD []

/-- Whether the link field `fld` of a record contains the handle of
the entity of type `tp` and id `n`, under Python equality: a
single-entity field contains it when its value is that handle, a
multi-entity field when some element of its list is. -/
def linkFieldContainsB (e : Rec) (fld tp : String) (n : Int) : Bool :=
  match alGet fld e with
  | some (.vdict d) => dictEq d (hndl tp n)
  | some (.vlist xs) => xs.any fun x =>
      match x with
      | .idict d => dictEq d (hndl tp n)
      | .iprim _ => false
  | _ => false

/-! ## Specification vocabulary for the middleware theorems -/

/-- The canonical cache value of a multi-entity field: the handles of
type `lnk` with the given ids (the shape produced by the join and by
value coercion). -/
def linksVal (lnk : String) (hs : List Int) : Value :=
  .vlist (hs.map fun m => .idict (hndl lnk m))

/-- A multi-entity link field spec on type `T` named `fld`, linking to
type `L` whose declared reverse field is `rf`, over relation table `t`. -/
def multiSpec (T fld L rf t : String) : FieldSpec :=
  { entity_type := T, name := fld, ftype := some "multi_entity",
    link := [L], link_field := [(L, rf)], table := some t }

/-- A single-entity link field spec on type `T` named `fld`, linking
to type `L` whose declared reverse field is `rf`, over relation table
`t`. -/
def entitySpec (T fld L rf t : String) : FieldSpec :=
  { entity_type := T, name := fld, ftype := some "entity",
    link := [L], link_field := [(L, rf)], table := some t }

/-- Well-formedness of one active table with respect to one
multi-entity link field: every key parses as the integer stored in the
record's `id` field, record keys are duplicate-free, and the link
field value (when present) is a canonical list of handles of the link
type. -/
def tableWF (fld lnk : String) (tbl : Table) : Prop :=
  ∀ p ∈ tbl,
    (∃ n : Int, pyStrToInt p.1 = some n ∧ (p.2 ≠ [] → alGet "id" p.2 = some (Value.int n))) ∧
    (p.2 ≠ [] →
      (p.2.map Prod.fst).Nodup ∧
      (alGet fld p.2 = none ∨ ∃ hs : List Int, alGet fld p.2 = some (linksVal lnk hs)))

/-- Membership of a row in the accumulated link tables. -/
def ltMem (lt : LinkTables) (tn : String) (r : Row) : Prop :=
  ∃ rs, alGet tn lt = some rs ∧ r ∈ rs

/-- The accumulated link tables hold only table `t`, hold at most one
entry, and all rows are canonical two-key rows over `slk`/`stk`. -/
def ltWF (slk stk t : String) (lt : LinkTables) : Prop :=
  lt.length ≤ 1 ∧
  (∀ p ∈ lt, p.1 = t) ∧
  ∀ p ∈ lt, ∀ r ∈ p.2, ∃ m n : Int, r = mkRow slk (.pint m) stk (.pint n)

/-- An active table emits the relation row pairing link id `m` with
this-entity id `n` through the given field. -/
def emitsLink (fld lnk : String) (tbl : Table) (m n : Int) : Prop :=
  ∃ p ∈ tbl, p.2 ≠ [] ∧ alGet "id" p.2 = some (Value.int n) ∧
    ∃ hs : List Int, alGet fld p.2 = some (linksVal lnk hs) ∧ m ∈ hs

/-- The canonical relation row of table `t` shared by the reverse pair
`A.fn` / `B.gn`, pairing the id `a` of the `B` side with the id `b` of
the `A` side. -/
def rowAt (A fn B gn : String) (a b : Int) : Row :=
  mkRow (B ++ "." ++ gn) (.pint a) (A ++ "." ++ fn) (.pint b)

/-- The entry of the `linked_entity_list` map for one entity id
(empty when the map has no entry). -/
def lmGet (lm : List (Int × List Dict)) (n : Int) : List Dict :=
  match lm.find? (fun q => q.1 = n) with
  | some q => q.2
  | none => []

/-- The record transformation applied by the write step to one active
table: non-empty records are stripped of the drop fields. -/
def stripTable (dropNames : List String) (tbl : Table) : Table :=
  tbl.map fun p => (p.1, if p.2.isEmpty then p.2 else stripRec dropNames p.2)

/-- The record transformation of the id-injection step of read, for a
record whose key parses. -/
def injectedRec (T : String) (retired : Table) (ke : String × Rec) : Rec :=
  if alHasKey ke.1 retired then ke.2
  else
    match pyStrToInt ke.1 with
    | some n => alSet "type" (Value.str T) (alSet "id" (Value.int n) ke.2)
    | none => ke.2

/-- The record transformation of the join step of read, for a record
whose key parses: install the sorted handles when the map has some. -/
def joinedRec (lm : List (Int × List Dict)) (fld : String) (ke : String × Rec) : Rec :=
  match pyStrToInt ke.1 with
  | some nk =>
      if lmGet lm nk = [] then ke.2
      else alSet fld (.vlist ((sortById (lmGet lm nk)).map Item.idict)) ke.2
  | none => ke.2

/-! ## The Connection layer: cache accessors and the Link Integrity Manager -/

/-- Python `str(...)` of a scalar, as used on entity ids and keys.
Non-scalar ids do not occur in the store. -/
def pyStrOfPrim (p : Prim) : Except Err String :=
  match p with
  | .pint n => .ok (toString n)
  | .pstr s => .ok s
  | .pbool b => .ok (if b then "True" else "False")
  | .pnone => .ok "None"
  | _ => .error (.typeError "str() of this value is not modelled")

/-- Connection.__get_table_name. -/
def tableNameOf (t : String) (retired : Bool) : String :=
  if retired then "Retired:" ++ t else t

/-- Connection.__get_entity_raw: `self.__tables.get(table, {}).get(str(id))`,
a live handle into the middleware read cache. -/
def getEntityRaw (cache : Data) (tp key : String) (retired : Bool) : Option Rec :=
  alGet key ((alGet (tableNameOf tp retired) cache).getD [])

/-- Connection.__set_entity_raw: `setdefault(table, {})` then store or pop. -/
def setEntityRaw (cache : Data) (tp key : String) (v : Option Rec) (retired : Bool) : Data :=
  let tname := tableNameOf tp retired
  let tbl := (alGet tname cache).getD []
  alSet tname (match v with
    | none => alPop key tbl
    | some r => alSet key r tbl) cache

/-- Connection.__has_entity: `bool(self.__tables.get(t, {}).get(str(id)))` —
a missing *or empty* record is falsy. -/
def hasEntity (cache : Data) (tp key : String) (retired : Bool) : Bool :=
  match getEntityRaw cache tp key retired with
  | some r => !r.isEmpty
  | none => false

/-- Python `x or None` on an optional record (empty husks become None). -/
def orNone (o : Option Rec) : Option Rec :=
  match o with
  | some r => if r.isEmpty then none else some r
  | none => none

/-- entity.as_handle: `_get(entity, [])` keeps the `type` and `id`
entries that are present, in that order. -/
def as_handle (e : Rec) : Except Err Dict := do
  let t ← match alGet "type" e with
    | none => .ok ([] : Dict)
    | some (.vprim p) => .ok [(("type" : String), p)]
    | some _ => .error (.typeError "non-scalar type value")
  let i ← match alGet "id" e with
    | none => .ok ([] : Dict)
    | some (.vprim p) => .ok [(("id" : String), p)]
    | some _ => .error (.typeError "non-scalar id value")
  .ok (t ++ i)

/-- One insertion into the `group_by_type` result (a defaultdict of lists
keyed by the entities' `type` values). -/
def gbtAdd (m : List (Prim × List Dict)) (t : Prim) (d : Dict) : List (Prim × List Dict) :=
  match m.find? (fun q => primEq q.1 t) with
  | some _ => m.map fun q => if primEq q.1 t then (q.1, q.2 ++ [d]) else q
  | none => m ++ [(t, [d])]

/-- utils.group_by_type. -/
def group_by_type (ds : List Dict) : Except Err (List (Prim × List Dict)) :=
  ds.foldlM
    (fun acc d =>
      match alGet "type" d with
      | none => .error (.keyError "type")
      | some t => .ok (gbtAdd acc t d))
    []

/-- `map.get(entity_type, [])` on a `group_by_type` result. -/
def gbtGet (m : List (Prim × List Dict)) (t : String) : List Dict :=
  match m.find? (fun q => primEq q.1 (.pstr t)) with
  | some q => q.2
  | none => []

/-- The items of a stored multi-entity value as a list of dictionaries
(`entity.get(field, [])`), failing on a non-dict item as `as_key` would. -/
def valueDicts (o : Option Value) : Except Err (List Dict) :=
  match o with
  | none => .ok []
  | some (.vlist xs) =>
      xs.foldlM
        (fun acc x =>
          match x with
          | .idict d => .ok (acc ++ [d])
          | .iprim _ => .error (.typeError "link item is not a dict"))
        []
  | some _ => .error (.typeError "link value is not a list")

/-- Connection.schema_entity_read reduced to its error protocol: the
`_schema` table is the list of registered entity type names. -/
def schema_entity_read (schema : List String) (tp : String) : Except Err Unit :=
  if schema.contains tp then .ok ()
  else .error (.schemaError ("A(n) '" ++ tp ++ " entity has not been registered."))

/-- The synthesized `id` field spec of Connection.schema_field_read_all. -/
def idFieldSpec (tp : String) : FieldSpec :=
  { entity_type := tp, name := "id", ftype := some "number" }

/-- The synthesized `type` field spec of Connection.schema_field_read_all. -/
def typeFieldSpec (tp : String) : FieldSpec :=
  { entity_type := tp, name := "type", ftype := some "text" }

/-- Connection.schema_field_read_all: the `_fields` rows of the type
plus the synthesized id/type specs. -/
def schema_field_read_all (fields : List FieldSpec) (schema : List String) (tp : String) :
    Except Err (List FieldSpec) := do
  let _ ← schema_entity_read schema tp
  .ok (fieldsOf fields tp ++ [idFieldSpec tp, typeFieldSpec tp])

/-- Connection.__unlink_entity_from. The remove loop drops `entity`
from the reverse field of every link removed by the update and stores
the result. The add loop of the source fetches each added link and,
for a multi-entity reverse field, builds `new_value` as a copy of the
old list with `entity` appended — but never assigns it back to the
link (and has no branch at all for an entity-typed reverse field), so
the cache is not changed by it. -/
def unlink_entity_from (cache : Data) (entity : Dict) (reverse_field : FieldSpec)
    (old_links new_links : List Dict) : Except Err Data := do
  let field_name := reverse_field.name
  let old_ids ← old_links.foldlM
    (fun acc d =>
      match alGet "id" d with
      | some p => .ok (acc ++ [p])
      | none => .error (.keyError "id"))
    ([] : List Prim)
  let new_ids ← new_links.foldlM
    (fun acc d =>
      match alGet "id" d with
      | some p => .ok (acc ++ [p])
      | none => .error (.keyError "id"))
    ([] : List Prim)
  let cache ← old_links.foldlM
    (fun c link => do
      let lid ← match alGet "id" link with
        | some p => .ok p
        | none => .error (.keyError "id")
      if new_ids.any fun q => primEq q lid then
        .ok c
      else do
        let ltp ← match alGet "type" link with
          | some (Prim.pstr s) => Except.ok s
          | some _ => Except.error (Err.typeError "link type is not a string")
          | none => Except.error (Err.keyError "type")
        let key ← pyStrOfPrim lid
        let lrec ← match getEntityRaw c ltp key false with
          | some r => .ok r
          | none => .error (.attributeError "NoneType has no attribute get")
        let rft ← match reverse_field.ftype with
          | some s => Except.ok s
          | none => Except.error (Err.keyError "type")
        if rft = "multi_entity" then do
          let old_value ← match alGet field_name lrec with
            | none => .ok ([] : List Item)
            | some (.vlist xs) => .ok xs
            | some _ => .error (.typeError "reverse link value is not a list")
          let new_value := old_value.filter fun x =>
            match x with
            | .idict d => !dictEq d entity
            | .iprim _ => true
          .ok (setEntityRaw c ltp key (some (alSet field_name (.vlist new_value) lrec)) false)
        else if rft = "entity" then
          .ok (setEntityRaw c ltp key (some (alPop field_name lrec)) false)
        else
          .ok c)
    cache
  let cache ← new_links.foldlM
    (fun c link => do
      let lid ← match alGet "id" link with
        | some p => .ok p
        | none => .error (.keyError "id")
      if old_ids.any fun q => primEq q lid then
        .ok c
      else do
        let ltp ← match alGet "type" link with
          | some (Prim.pstr s) => Except.ok s
          | some _ => Except.error (Err.typeError "link type is not a string")
          | none => Except.error (Err.keyError "type")
        let key ← pyStrOfPrim lid
        let fetched := getEntityRaw c ltp key false
        let rft ← match reverse_field.ftype with
          | some s => Except.ok s
          | none => Except.error (Err.keyError "type")
        if rft = "multi_entity" then do
          let lrec ← match fetched with
            | some r => .ok r
            | none => .error (.attributeError "NoneType has no attribute get")
          let old_value ← match alGet field_name lrec with
            | none => .ok ([] : List Item)
            | some (.vlist xs) => .ok xs
            | some _ => .error (.typeError "reverse link value is not a list")
          let _new_value := old_value ++ [Item.idict entity]
          .ok c
        else
          .ok c)
    cache
  .ok cache

/-- Write a record back through a live cache reference: the connection
update path mutates the cached record in place, the delete path works
on a detached copy. -/
def write_through (loc : Option (String × String)) (cache : Data) (e : Rec) : Data :=
  match loc with
  | some (tp, key) => setEntityRaw cache tp key (some e) false
  | none => cache

/-- Connection.__update_entity_link_field. -/
def update_entity_link_field (fields : List FieldSpec) (loc : Option (String × String))
    (cache : Data) (e : Rec) (field : FieldSpec) (value : Option Dict) :
    Except Err (Rec × Data) := do
  let field_name := field.name
  let old_value := alGet field_name e
  let new_value := match value with
    | some d => if d.isEmpty then none else some d
    | none => none
  let e1 := match new_value with
    | some d => alSet field_name (.vdict d) e
    | none => alPop field_name e
  let cache := write_through loc cache e1
  let handle ← as_handle e1
  let ftab ← match field.table with
    | some s => .ok s
    | none => .error (.keyError "table")
  let etp ← match alGet "type" handle with
    | some p => .ok p
    | none => .error (.keyError "type")
  let reverse_fields := fields.filter fun f =>
    f.table == some ftab && (match etp with | .pstr s => f.link == [s] | _ => false)
  let old_links ← match old_value with
    | some v =>
        if v.truthy then
          match v with
          | .vdict d => .ok [d]
          | _ => .error (.typeError "link value is not a dict")
        else .ok ([] : List Dict)
    | none => .ok ([] : List Dict)
  let new_links := match new_value with
    | some d => [d]
    | none => ([] : List Dict)
  let cache ← reverse_fields.foldlM
    (fun c rf => unlink_entity_from c handle rf old_links new_links) cache
  .ok (e1, cache)

/-- Connection.__update_multi_entity_link_field. -/
def update_multi_entity_link_field (fields : List FieldSpec) (loc : Option (String × String))
    (cache : Data) (e : Rec) (field : FieldSpec) (value : List Dict)
    (update_mode : Option String) : Except Err (Rec × Data) := do
  let field_name := field.name
  let old_values ← valueDicts (alGet field_name e)
  let new_values ← update_multi_entity_field old_values value update_mode
  let e1 := if !new_values.isEmpty then
      alSet field_name (.vlist (new_values.map Item.idict)) e
    else
      alPop field_name e
  let cache := write_through loc cache e1
  let handle ← as_handle e1
  let old_map ← group_by_type old_values
  let new_map ← group_by_type new_values
  let ftab ← match field.table with
    | some s => .ok s
    | none => .error (.keyError "table")
  let etp ← match alGet "type" handle with
    | some p => .ok p
    | none => .error (.keyError "type")
  let reverse_fields := fields.filter fun f =>
    f.table == some ftab && (match etp with | .pstr s => f.link == [s] | _ => false)
  let cache ← reverse_fields.foldlM
    (fun c rf =>
      unlink_entity_from c handle rf (gbtGet old_map rf.entity_type)
        (gbtGet new_map rf.entity_type))
    cache
  .ok (e1, cache)

/-! ## The Connection layer: delete and revive -/

/-- The full database state behind a connection: the persisted data and
the middleware read cache. -/
structure DBState where
  disk : Data
  cache : Data
deriving Repr, DecidableEq

/-- ReadCachingMiddleware.flush: push the cache through the
pivot-normalizing write, then rematerialize the cache with read. -/
def storage_flush (schema : List String) (fields : List FieldSpec) (st : DBState) :
    Except Err DBState := do
  let d ← write schema fields st.cache
  let c ← read schema fields d
  .ok ⟨d, c⟩

/-- The comprehension of revive's multi-entity branch: keep the link
items whose targets `__has_entity` confirms (in the Active state). -/
def prune_multi_items (cache : Data) (acc : List Item) : List Item → Except Err (List Item)
  | [] => .ok acc
  | x :: rest =>
      match x with
      | .idict d => do
          let ltp ← match alGet "type" d with
            | some (Prim.pstr s) => Except.ok s
            | some _ => Except.error (Err.typeError "link type is not a string")
            | none => Except.error (Err.keyError "type")
          let lid ← match alGet "id" d with
            | some p => Except.ok p
            | none => Except.error (Err.keyError "id")
          let lkey ← pyStrOfPrim lid
          if hasEntity cache ltp lkey false then prune_multi_items cache (acc ++ [x]) rest
          else prune_multi_items cache acc rest
      | .iprim _ => .error (.typeError "link item is not a dict")

/-- The body of revive's remove-retired-links loop for one field of the
retired record: an entity link is dropped when `__has_entity` (which
consults the *Active* table only) denies its target; a multi-entity
list keeps the entries `__has_entity` confirms and is dropped when
none survive. -/
def prune_link_field (cache : Data) (e : Rec) (f : FieldSpec) : Except Err Rec :=
  if f.ftype = some "entity" then
    match alGet f.name e with
    | none => .ok e
    | some (.vprim .pnone) => .ok e
    | some (.vdict d) => do
        let ltp ← match alGet "type" d with
          | some (.pstr s) => .ok s
          | some _ => .error (.typeError "link type is not a string")
          | none => .error (.keyError "type")
        let lid ← match alGet "id" d with
          | some p => .ok p
          | none => .error (.keyError "id")
        let lkey ← pyStrOfPrim lid
        if hasEntity cache ltp lkey false then .ok e
        else .ok (alPop f.name e)
    | some _ => .error (.typeError "link value is not a dict")
  else if f.ftype = some "multi_entity" then do
    let xs ← match alGet f.name e with
      | none => .ok ([] : List Item)
      | some (.vlist xs) => .ok xs
      | some _ => .error (.typeError "link value is not a list")
    let links ← prune_multi_items cache [] xs
    if !links.isEmpty then .ok (alSet f.name (.vlist links) e)
    else .ok (alPop f.name e)
  else
    .ok e

/-- The remove-retired-links loop of Connection.revive. -/
def revive_prune (cache : Data) (flds : List FieldSpec) (e : Rec) : Except Err Rec :=
  flds.foldlM (prune_link_field cache) e

/-- Connection.revive. -/
def revive (schema : List String) (fields : List FieldSpec) (st : DBState)
    (tp : String) (eid : Int) : Except Err (Bool × DBState) := do
  let _ ← schema_entity_read schema tp
  let key := toString eid
  let active := orNone (getEntityRaw st.cache tp key false)
  let retired := orNone (getEntityRaw st.cache tp key true)
  match active, retired with
  | none, none =>
      .error (.entityNotFound "A(n) 'f{entity_type}' entity for id f{entity_id} does not exist.")
  | some _, _ => .ok (false, st)
  | none, some e0 => do
      let flds ← schema_field_read_all fields schema tp
      let e ← revive_prune st.cache flds e0
      let cache := setEntityRaw st.cache tp key (some e) false
      let cache := setEntityRaw cache tp key none true
      let st2 ← storage_flush schema fields ⟨st.disk, cache⟩
      .ok (true, st2)

/-- Connection.delete. -/
def delete (schema : List String) (fields : List FieldSpec) (st : DBState)
    (tp : String) (eid : Int) : Except Err (Bool × DBState) := do
  let _ ← schema_entity_read schema tp
  let key := toString eid
  let active := orNone (getEntityRaw st.cache tp key false)
  let retired := orNone (getEntityRaw st.cache tp key true)
  match active, retired with
  | none, none =>
      .error (.entityNotFound "A(n) 'f{entity_type}' entity for id f{entity_id} does not exist.")
  | some _, _ => do
      let entity ← match getEntityRaw st.cache tp key false with
        | some r => .ok r
        | none => .error (.attributeError "NoneType")
      let flds ← schema_field_read_all fields schema tp
      let (_, cache) ← flds.foldlM
        (fun (acc : Rec × Data) f =>
          if f.ftype = some "entity" then
            update_entity_link_field fields none acc.2 acc.1 f none
          else if f.ftype = some "multi_entity" then
            update_multi_entity_link_field fields none acc.2 acc.1 f [] (some "set")
          else
            .ok acc)
        (entity, st.cache)
      let entityNow := (getEntityRaw cache tp key false).getD entity
      let cache := setEntityRaw cache tp key (some []) false
      let cache := setEntityRaw cache tp key (some entityNow) true
      let st2 ← storage_flush schema fields ⟨st.disk, cache⟩
      .ok (true, st2)
  | none, some _ => .ok (false, st)

/-! ## The Connection layer: queries -/

/-- A hydrated field value as produced by the query result join: plain
stored values pass through, link handles are replaced by the (possibly
again hydrated) records of their targets. -/
inductive HVal where
  | prim (p : Prim)
  | vdict (d : Dict)
  | vlist (xs : List Item)
  | ent (e : List (String × HVal))
  | ents (es : List (List (String × HVal)))

/-- A hydrated query result record. -/
abbrev HRec := List (String × HVal)

/-- The injection of a stored value into the hydrated value type. -/
def HVal.ofValue : Value → HVal
  | .vprim p => .prim p
  | .vdict d => .vdict d
  | .vlist xs => .vlist xs

/-- An item of a stored list as a value. -/
def itemVal : Item → Value
  | .iprim p => .vprim p
  | .idict d => .vdict d

/-- fields.is_deep_field: the separator occurs in the name. -/
def is_deep_field (s : String) : Bool := strContainsSub s "."

/-- One step of `str.split(sep, ...)` on the dot separator. -/
def splitOnceDot : List Char → Option (List Char × List Char)
  | [] => none
  | c :: rest =>
      if c = '.' then some ([], rest)
      else
        match splitOnceDot rest with
        | some (a, b) => some (c :: a, b)
        | none => none

/-- fields.parse_deep_field: `return_field.split(".", 2)` into exactly
three parts. -/
def parse_deep_field (s : String) : Except Err (String × String × String) :=
  match splitOnceDot s.data with
  | none => .error (.filterSpecError "Deep field must have at least three values.")
  | some (h, r1) =>
      match splitOnceDot r1 with
      | none => .error (.filterSpecError "Deep field must have at least three values.")
      | some (m, r2) => .ok (String.mk h, String.mk m, String.mk r2)

/-- Connection.schema_field_read: the synthesized id/type specs, else
the first matching `_fields` row. -/
def schema_field_read (fields : List FieldSpec) (schema : List String) (tp fname : String) :
    Except Err FieldSpec := do
  let _ ← schema_entity_read schema tp
  if fname = "id" then .ok { name := "id", ftype := some "number" }
  else if fname = "type" then .ok { name := "type", ftype := some "text" }
  else
    match fields.find? (fun f => f.entity_type = tp && f.name = fname) with
    | some f => .ok f
    | none => .error (.schemaError ("Entity '" ++ tp ++ " has no '" ++ fname ++ "' field."))

/-- filters.parse_filter_spec: a filter is `[field, operator]` plus one
or two value entries. -/
def parse_filter_spec (fs : List Value) : Except Err (Value × Value × List Value) :=
  match fs with
  | f :: op :: rest =>
      if rest.length = 1 || rest.length = 2 then .ok (f, op, rest)
      else .error (.filterSpecError "Invalid filter spec - expected [field, operator, value(s)]")
  | _ => .error (.filterSpecError "Invalid filter spec - expected [field, operator, value(s)]")

/-- The keys of filters.FILTER_OPERATORS, as registered. -/
def filterOpNames : List String :=
  ["between", "contains", "ends_with", "greater_than", "in", "in_calendar", "in_last",
   "in_next", "is", "is_not", "less_than", "not_between", "not_contains", "not_ends_with",
   "not_in", "not_in_calendar", "not_in_last", "not_in_next", "not_starts_with",
   "starts_with", "type_is", "type_is_not"]

/-- filters.get: the registry lookup (a non-string or unregistered
operator raises FilterSpecError). -/
def filters_get (op : Value) : Except Err String :=
  match op with
  | .vprim (.pstr s) =>
      if filterOpNames.contains s then .ok s
      else .error (.filterSpecError ("Invalid filter operator: '" ++ s ++ "'"))
  | _ => .error (.filterSpecError "Invalid filter operator")

/-- Python `<` on scalars (numbers compare across kinds, strings and
date tuples lexicographically; mixed kinds raise TypeError). -/
def pyLt (a b : Prim) : Except Err Bool :=
  match a, b with
  | .pint n, .pint m => .ok (decide (n < m))
  | .pint n, .pfloat q => .ok (decide ((n : Rat) < q))
  | .pfloat q, .pint m => .ok (decide (q < (m : Rat)))
  | .pfloat q, .pfloat r => .ok (decide (q < r))
  | .pbool x, .pint m => .ok (decide ((if x then (1 : Int) else 0) < m))
  | .pint n, .pbool y => .ok (decide (n < (if y then (1 : Int) else 0)))
  | .pbool x, .pbool y => .ok (decide ((if x then (1 : Int) else 0) < (if y then 1 else 0)))
  | .pstr s, .pstr t => .ok (strLt s t)
  | .pdate y m d, .pdate y2 m2 d2 =>
      .ok (decide (y < y2 ∨ (y = y2 ∧ (m < m2 ∨ (m = m2 ∧ d < d2)))))
  | .pdatetime y m d h mi s, .pdatetime y2 m2 d2 h2 mi2 s2 =>
      .ok (decide (y < y2 ∨ (y = y2 ∧ (m < m2 ∨ (m = m2 ∧ (d < d2 ∨ (d = d2 ∧
        (h < h2 ∨ (h = h2 ∧ (mi < mi2 ∨ (mi = mi2 ∧ s < s2)))))))))))
  | _, _ => .error (.typeError "comparison not supported between instances")

/-- Python `b in a` (operator.contains): substring for strings,
membership under `==` for lists, key membership for dictionaries. -/
def pyContains (a b : Value) : Except Err Bool :=
  match a with
  | .vlist xs => .ok (xs.any fun x => pyEq (itemVal x) b)
  | .vprim (.pstr s) =>
      match b with
      | .vprim (.pstr t) => .ok (strContainsSub s t)
      | _ => .error (.typeError "in string requires string")
  | .vdict d =>
      match b with
      | .vprim (.pstr t) => .ok (alHasKey t d)
      | .vprim _ => .ok false
      | _ => .error (.typeError "unhashable type")
  | _ => .error (.typeError "argument is not iterable")

/-- filters.in_: a list-valued left side matches when any of its items
is in the right side, otherwise plain membership. -/
def pyIn (a b : Value) : Except Err Bool :=
  match a with
  | .vlist xs =>
      xs.foldlM
        (fun acc x => do
          let r ← pyContains b (itemVal x)
          .ok (acc || r))
        false
  | _ => pyContains b a

/-- filters.type_is: the `type` entry of an entity dictionary equals
the given type (or is one of the given types). -/
def pyTypeIs (a arg : Value) : Except Err Bool :=
  match a with
  | .vdict d =>
      match alGet "type" d with
      | none => .error (.keyError "type")
      | some tv =>
          match arg with
          | .vprim (.pstr s) => .ok (primEq tv (.pstr s))
          | .vlist xs => .ok (xs.any fun x => pyEq (itemVal x) (.vprim tv))
          | _ => .error (.typeError "argument is not iterable")
  | _ => .error (.typeError "entity is not a dict")

/-- Python `str.startswith` / `str.endswith` on scalars. -/
def pyAffix (atEnd : Bool) (a b : Value) : Except Err Bool :=
  match a, b with
  | .vprim (.pstr s), .vprim (.pstr t) =>
      .ok (if atEnd then t.data.isSuffixOf s.data else t.data.isPrefixOf s.data)
  | _, _ => .error (.typeError "startswith requires strings")

/-- The registered filter-operator functions, applied to a field value
and the filter arguments (`func(field_value, *filter_value)`); the
`not_`/`_not` registrations are the `neg` wrappers of the source. The
three wall-clock operator families (in_calendar, in_last, in_next)
depend on `today()` and are outside the modelled fragment. -/
def applyFilterOp (op : String) (a : Value) (args : List Value) : Except Err Bool :=
  match op, args with
  | "is", [b] => .ok (pyEq a b)
  | "is_not", [b] => .ok (!pyEq a b)
  | "in", [b] => pyIn a b
  | "not_in", [b] => do
      let r ← pyIn a b
      .ok (!r)
  | "contains", [b] => pyContains a b
  | "not_contains", [b] => do
      let r ← pyContains a b
      .ok (!r)
  | "starts_with", [b] => pyAffix false a b
  | "not_starts_with", [b] => do
      let r ← pyAffix false a b
      .ok (!r)
  | "ends_with", [b] => pyAffix true a b
  | "not_ends_with", [b] => do
      let r ← pyAffix true a b
      .ok (!r)
  | "greater_than", [b] =>
      match b, a with
      | .vprim pb, .vprim pa => pyLt pb pa
      | _, _ => .error (.typeError "comparison not supported between instances")
  | "less_than", [b] =>
      match a, b with
      | .vprim pa, .vprim pb => pyLt pa pb
      | _, _ => .error (.typeError "comparison not supported between instances")
  | "between", [mn, mx] =>
      match a, mn, mx with
      | .vprim pa, .vprim pmn, .vprim pmx => do
          let r1 ← pyLt pmn pa
          if r1 then pyLt pa pmx else .ok false
      | _, _, _ => .error (.typeError "comparison not supported between instances")
  | "not_between", [mn, mx] =>
      match a, mn, mx with
      | .vprim pa, .vprim pmn, .vprim pmx => do
          let r1 ← pyLt pmn pa
          let r ← if r1 then pyLt pa pmx else Except.ok false
          .ok (!r)
      | _, _, _ => .error (.typeError "comparison not supported between instances")
  | "type_is", [b] => pyTypeIs a b
  | "type_is_not", [b] => do
      let r ← pyTypeIs a b
      .ok (!r)
  | "in_calendar", _ => .error (.typeError "clock-dependent operator is not modelled")
  | "not_in_calendar", _ => .error (.typeError "clock-dependent operator is not modelled")
  | "in_last", _ => .error (.typeError "clock-dependent operator is not modelled")
  | "not_in_last", _ => .error (.typeError "clock-dependent operator is not modelled")
  | "in_next", _ => .error (.typeError "clock-dependent operator is not modelled")
  | "not_in_next", _ => .error (.typeError "clock-dependent operator is not modelled")
  | _, _ => .error (.typeError "wrong number of filter arguments")

/-- Connection._filter_to_query: parse the spec and look the operator
up; the query tests the named document field. -/
def filter_to_query (fs : List Value) : Except Err (String × String × List Value) := do
  let (field, op, args) ← parse_filter_spec fs
  let opName ← filters_get op
  let fieldName ← match field with
    | .vprim (.pstr s) => Except.ok s
    | _ => Except.error (.typeError "query field must be a string")
  .ok (fieldName, opName, args)

/-- Connection._filters_to_query: the conjunction of the per-filter
queries. -/
def filters_to_query (fss : List (List Value)) :
    Except Err (List (String × String × List Value)) :=
  fss.mapM filter_to_query

/-- Evaluate the conjunction on one document: a missing field fails
the test, as tinydb's path resolution does; `and` short-circuits. -/
def evalQuery (qs : List (String × String × List Value)) (doc : Rec) : Except Err Bool :=
  qs.foldlM
    (fun acc q =>
      if acc then
        match alGet q.1 doc with
        | none => .ok false
        | some v => applyFilterOp q.2.1 v q.2.2
      else .ok false)
    true

/-- A table key as a tinydb document id (`int(key)`). -/
def docIdOfKey (k : String) : Except Err Int :=
  match pyStrToInt k with
  | some n => .ok n
  | none => .error (.valueError ("invalid literal for int: " ++ k))

/-- The documents of a cached table, in storage order. -/
def tableDocs (cache : Data) (tname : String) : Except Err (List (Int × Rec)) :=
  ((alGet tname cache).getD []).foldlM
    (fun acc p => do
      let n ← docIdOfKey p.1
      .ok (acc ++ [(n, p.2)]))
    []

/-- tinydb Table.search over the cache. -/
def tableSearch (cache : Data) (tname : String) (qs : List (String × String × List Value)) :
    Except Err (List (Int × Rec)) := do
  let docs ← tableDocs cache tname
  docs.foldlM
    (fun acc d => do
      let b ← evalQuery qs d.2
      .ok (if b then acc ++ [d] else acc))
    []

/-- tinydb Table.get(doc_ids=...): the table's documents whose key is
among the requested ids, in table order. -/
def tableGetDocIds (cache : Data) (tname : String) (ids : List Prim) :
    Except Err (List (Int × Rec)) := do
  let keys ← ids.mapM pyStrOfPrim
  ((alGet tname cache).getD []).foldlM
    (fun acc p =>
      if keys.contains p.1 then do
        let n ← docIdOfKey p.1
        .ok (acc ++ [(n, p.2)])
      else .ok acc)
    []

/-- entity.get: merge the document id and type into the record, then
keep the requested return fields (type and id always) in request
order. -/
def entity_get (tp : String) (docId : Int) (rec : Rec)
    (return_fields : Option (List String)) : Rec :=
  let merged := rec.foldl (fun acc kv => alSet kv.1 kv.2 acc)
    [("id", Value.int docId), ("type", Value.str tp)]
  match return_fields with
  | none => merged
  | some flds =>
      ("type" :: "id" :: flds).foldl
        (fun acc f =>
          match alGet f merged with
          | some v => alSet f v acc
          | none => acc)
        []

/-- entity.null: the null handle of a type. -/
def entity_null (tp : String) : HRec :=
  [("type", HVal.prim (.pstr tp)), ("id", HVal.prim (.pint (-1)))]

/-- entity.as_handle on a hydrated record. -/
def as_handle_h (e : HRec) : Except Err Dict := do
  let t ← match alGet "type" e with
    | none => Except.ok ([] : Dict)
    | some (HVal.prim p) => Except.ok [(("type" : String), p)]
    | some _ => Except.error (.typeError "non-scalar type value")
  let i ← match alGet "id" e with
    | none => Except.ok ([] : Dict)
    | some (HVal.prim p) => Except.ok [(("id" : String), p)]
    | some _ => Except.error (.typeError "non-scalar id value")
  .ok (t ++ i)

/-- One handle added to the `__get_links_map` result (a defaultdict of
id sets keyed by link type). -/
def linksMapAdd (m : List (String × List Prim)) (v : Value) :
    Except Err (List (String × List Prim)) :=
  match v with
  | .vdict d => do
      let t ← match alGet "type" d with
        | some (Prim.pstr s) => Except.ok s
        | some _ => Except.error (.typeError "link type is not a string")
        | none => Except.error (.keyError "type")
      let i ← match alGet "id" d with
        | some p => Except.ok p
        | none => Except.error (.keyError "id")
      .ok (match m.find? (fun q => q.1 = t) with
        | some _ => m.map fun q =>
            if q.1 = t then (q.1, if q.2.any fun p => primEq p i then q.2 else q.2 ++ [i])
            else q
        | none => m ++ [(t, [i])])
  | _ => .error (.typeError "link value is not a dict")

/-- Connection.__get_links_map: every handle referenced by a link field
of the results, grouped by type. -/
def get_links_map (fields : List FieldSpec) (schema : List String) (results : List Rec) :
    Except Err (List (String × List Prim)) :=
  results.foldlM
    (fun acc e => do
      let tp ← match alGet "type" e with
        | some (Value.vprim (Prim.pstr s)) => Except.ok s
        | some _ => Except.error (.typeError "entity type is not a string")
        | none => Except.error (.keyError "type")
      e.foldlM
        (fun acc2 kv => do
          let fs ← schema_field_read fields schema tp kv.1
          if is_entity fs then linksMapAdd acc2 kv.2
          else if is_multi_entity fs then
            match kv.2 with
            | .vlist xs => xs.foldlM (fun a x => linksMapAdd a (itemVal x)) acc2
            | _ => .error (.typeError "link value is not a list")
          else .ok acc2)
        acc)
    []

/-- Connection.__get_link_fields_map: the deep return fields grouped by
link type. -/
def get_link_fields_map (return_fields : Option (List String)) :
    Except Err (List (String × List String)) :=
  (return_fields.getD []).foldlM
    (fun acc f =>
      if is_deep_field f then do
        let (_, ltp, lfld) ← parse_deep_field f
        .ok (match acc.find? (fun q => q.1 = ltp) with
          | some _ => acc.map fun q => if q.1 = ltp then (q.1, q.2 ++ [lfld]) else q
          | none => acc ++ [(ltp, [lfld])])
      else .ok acc)
    []

/-- `map.get(t, [])` on a link-fields map. -/
def lfGet (m : List (String × List String)) (t : String) : List String :=
  match m.find? (fun q => q.1 = t) with
  | some q => q.2
  | none => []

/-- `link_filters[field].append(spec)` of Connection._resolve_filters. -/
def lfAppend (m : List (String × List (List Value))) (k : String) (v : List Value) :
    List (String × List (List Value)) :=
  match m.find? (fun q => q.1 = k) with
  | some _ => m.map fun q => if q.1 = k then (q.1, q.2 ++ [v]) else q
  | none => m ++ [(k, [v])]

/-- entity.as_entity_map on hydrated records (id-keyed, later entries
replacing earlier ones in place). -/
def as_entity_map (es : List HRec) : Except Err (List (Prim × HRec)) :=
  es.foldlM
    (fun m e => do
      let i ← match alGet "id" e with
        | some (HVal.prim p) => Except.ok p
        | some _ => Except.error (.typeError "non-scalar id value")
        | none => Except.error (.keyError "id")
      .ok (match m.find? (fun q => primEq q.1 i) with
        | some _ => m.map fun q => if primEq q.1 i then (q.1, e) else q
        | none => m ++ [(i, e)]))
    []

/-- `links[link["type"]][link["id"]]` of __set_linked_field_values. -/
def hlookup (links : List (String × List (Prim × HRec))) (v : Value) : Except Err HRec :=
  match v with
  | .vdict d => do
      let t ← match alGet "type" d with
        | some p => Except.ok p
        | none => Except.error (.keyError "type")
      let i ← match alGet "id" d with
        | some p => Except.ok p
        | none => Except.error (.keyError "id")
      let tm ← match t with
        | .pstr s =>
            match links.find? (fun q => q.1 = s) with
            | some q => Except.ok q.2
            | none => Except.error (.keyError s)
        | _ => Except.error (.keyError "type")
      match tm.find? (fun q => primEq q.1 i) with
      | some q => .ok q.2
      | none => .error (.keyError "id")
  | _ => .error (.typeError "link value is not a dict")

/-- Connection.__set_linked_field_values for one record: link-field
values are replaced by their hydrated targets, other values pass
through. -/
def set_linked_fields (fields : List FieldSpec) (schema : List String)
    (links : List (String × List (Prim × HRec))) (e : Rec) : Except Err HRec := do
  let tp ← match alGet "type" e with
    | some (Value.vprim (Prim.pstr s)) => Except.ok s
    | some _ => Except.error (.typeError "entity type is not a string")
    | none => Except.error (.keyError "type")
  e.foldlM
    (fun (acc : HRec) kv => do
      let fs ← schema_field_read fields schema tp kv.1
      if is_entity fs then do
        let h ← hlookup links kv.2
        .ok (acc ++ [(kv.1, HVal.ent h)])
      else if is_multi_entity fs then
        match kv.2 with
        | .vlist xs => do
            let hs ← xs.mapM fun x => hlookup links (itemVal x)
            .ok (acc ++ [(kv.1, HVal.ents hs)])
        | _ => .error (.typeError "link value is not a list")
      else .ok (acc ++ [(kv.1, HVal.ofValue kv.2)]))
    []

mutual

/-- Connection._join_linked_entities: collect the referenced handles,
fetch and hydrate their records (code renamed to name), and install
them over the link-field values of the results. -/
def join_linked_entities : Nat → List FieldSpec → List String → Data → List Rec →
    Option (List String) → Except Err (List HRec)
  | 0, _, _, _, _, _ => .error .recursionError
  | fuel + 1, fields, schema, cache, results, return_fields => do
      let link_ids ← get_links_map fields schema results
      let link_fields ← get_link_fields_map return_fields
      let links ← link_ids.foldlM
        (fun (acc : List (String × List (Prim × HRec))) q => do
          let entity_fields := "code" :: lfGet link_fields q.1
          let docs ← tableGetDocIds cache q.1 q.2
          let entity_list := docs.map fun d => entity_get q.1 d.1 d.2 (some entity_fields)
          let entity_list ←
            join_linked_entities fuel fields schema cache entity_list (some entity_fields)
          let entity_list ← entity_list.mapM (fun e => do
            let c ← match alGet "code" e with
              | some v => Except.ok v
              | none => Except.error (Err.keyError "code")
            Except.ok (alSet "name" c (alPop "code" e)))
          let emap ← as_entity_map entity_list
          .ok (acc ++ [(q.1, emap)]))
        []
      results.mapM (set_linked_fields fields schema links)

/-- Connection._resolve_filters: validate plain filters, collect the
deep filters into per-field conjunctive sub-queries, run each
sub-query with find_all, and append the replacement filter built from
its handles (the null handle when it matched nothing, an `is` filter
for exactly one handle, an `in` filter otherwise). -/
def resolve_filters : Nat → List String → List FieldSpec → Data → String →
    List (List Value) → Except Err (List (List Value))
  | 0, _, _, _, _, _ => .error .recursionError
  | fuel + 1, schema, fields, cache, tp, filters => do
      let (results, link_filters, link_types) ← filters.foldlM
        (fun (acc : List (List Value) × List (String × List (List Value)) ×
            List (String × String)) fs => do
          let (field, fop, fvals) ← parse_filter_spec fs
          let fieldStr ← match field with
            | .vprim (.pstr s) => Except.ok s
            | _ => Except.error (.typeError "argument is not iterable")
          if is_deep_field fieldStr then do
            let (entity_field, link_type, link_field) ← parse_deep_field fieldStr
            let field_schema ← schema_field_read fields schema tp entity_field
            if !is_link field_schema then
              .error (.filterSpecError
                ("Cannot do deep filter on non-link field " ++ tp ++ "." ++ entity_field))
            else
              .ok (acc.1,
                lfAppend acc.2.1 entity_field (Value.str link_field :: fop :: fvals),
                alSet entity_field link_type acc.2.2)
          else do
            let _ ← schema_field_read fields schema tp fieldStr
            .ok (acc.1 ++ [fs], acc.2.1, acc.2.2))
        ([], [], [])
      link_filters.foldlM
        (fun res q => do
          let link_type ← match alGet q.1 link_types with
            | some s => Except.ok s
            | none => Except.error (.keyError q.1)
          let links ← find_all fuel schema fields cache link_type q.2 none false
          let hnds ←
            if links.isEmpty then
              pure [hndl link_type (-1)]
            else
              links.mapM as_handle_h
          match hnds with
          | [h] => .ok (res ++ [[Value.str q.1, Value.str "is", Value.vdict h]])
          | _ => .ok (res ++ [[Value.str q.1, Value.str "in",
              Value.vlist (hnds.map Item.idict)]]))
        results

/-- Connection.find_all. -/
def find_all : Nat → List String → List FieldSpec → Data → String → List (List Value) →
    Option (List String) → Bool → Except Err (List HRec)
  | 0, _, _, _, _, _, _, _ => .error .recursionError
  | fuel + 1, schema, fields, cache, tp, filters, return_fields, retired_only => do
      let _ ← schema_entity_read schema tp
      let tname := tableNameOf tp retired_only
      let docs ←
        if filters.isEmpty then
          tableDocs cache tname
        else do
          let rfs ← resolve_filters fuel schema fields cache tp filters
          let qs ← filters_to_query rfs
          tableSearch cache tname qs
      let results := docs.map fun d => entity_get tp d.1 d.2 return_fields
      join_linked_entities fuel fields schema cache results return_fields

end

/-- Connection.find_one: `next(iter(results), None)` of find_all. -/
def find_one (fuel : Nat) (schema : List String) (fields : List FieldSpec) (cache : Data)
    (tp : String) (filters : List (List Value)) (return_fields : Option (List String))
    (retired_only : Bool) : Except Err (Option HRec) := do
  let results ← find_all fuel schema fields cache tp filters return_fields retired_only
  .ok results.head?

/-! ## The Connection layer: field value handling, create and update -/

@[simp] theorem exceptOkBind (x : α) (f : α → Except Err β) :
    (Except.ok x : Except Err α) >>= f = f x := rfl

@[simp] theorem exceptErrorBind (e : Err) (f : α → Except Err β) :
    (Except.error e : Except Err α) >>= f = .error e := rfl

@[simp] theorem exceptMapOk (x : α) (f : α → β) :
    (Except.ok x : Except Err α).map f = .ok (f x) := rfl

@[simp] theorem exceptMapError (e : Err) (f : α → β) :
    (Except.error e : Except Err α).map f = .error e := rfl

@[simp] theorem alGet_nil (k : String) : alGet k ([] : List (String × α)) = none := rfl

theorem alGet_cons (k : String) (e : String × α) (l : List (String × α)) :
    alGet k (e :: l) = if e.1 = k then some e.2 else alGet k l := rfl

@[simp] theorem alSet_nil (k : String) (v : α) : alSet k v ([] : List (String × α)) = [(k, v)] := rfl

theorem alSet_cons (k : String) (v : α) (e : String × α) (l : List (String × α)) :
    alSet k v (e :: l) = if e.1 = k then (e.1, v) :: l else e :: alSet k v l := rfl

@[simp] theorem alPop_nil (k : String) : alPop k ([] : List (String × α)) = [] := rfl

theorem alPop_cons (k : String) (e : String × α) (l : List (String × α)) :
    alPop k (e :: l) = if e.1 = k then l else e :: alPop k l := rfl

theorem alGet_alSet_self (k : String) (v : α) (l : List (String × α)) :
    alGet k (alSet k v l) = some v := by
  induction l with
  | nil => simp [alGet_cons]
  | cons hd tl ih =>
      rw [alSet_cons]
      by_cases h : hd.1 = k
      · simp [alGet_cons, h]
      · simp [alGet_cons, h, ih]

theorem alGet_alSet_ne {k k2 : String} (h : k2 ≠ k) (v : α) (l : List (String × α)) :
    alGet k (alSet k2 v l) = alGet k l := by
  induction l with
  | nil => simp [alGet_cons, h]
  | cons hd tl ih =>
      rw [alSet_cons]
      by_cases h2 : hd.1 = k2
      · have hk : hd.1 ≠ k := fun hh => h (h2.symm.trans hh)
        simp [alGet_cons, h2, hk, h]
      · rw [if_neg h2, alGet_cons, alGet_cons, ih]

theorem alGet_alPop_ne {k k2 : String} (h : k2 ≠ k) (l : List (String × α)) :
    alGet k (alPop k2 l) = alGet k l := by
  induction l with
  | nil => simp
  | cons hd tl ih =>
      rw [alPop_cons]
      by_cases h2 : hd.1 = k2
      · have hk : hd.1 ≠ k := fun hh => h (h2.symm.trans hh)
        rw [if_pos h2, alGet_cons, if_neg hk]
      · rw [if_neg h2, alGet_cons, alGet_cons, ih]

theorem alGet_none_alPop {k k2 : String} {l : List (String × α)}
    (h : alGet k l = none) : alGet k (alPop k2 l) = none := by
  induction l with
  | nil => simp
  | cons hd tl ih =>
      rw [alGet_cons] at h
      by_cases hk : hd.1 = k
      · simp [hk] at h
      · rw [if_neg hk] at h
        rw [alPop_cons]
        by_cases h2 : hd.1 = k2
        · simp [h2, h]
        · simp [h2, alGet_cons, hk, ih h]

theorem alGet_eq_none_of_not_mem {k : String} {l : List (String × α)}
    (h : k ∉ l.map Prod.fst) : alGet k l = none := by
  induction l with
  | nil => simp
  | cons hd tl ih =>
      simp only [List.map_cons, List.mem_cons] at h
      push_neg at h
      rw [alGet_cons, if_neg (fun hh => h.1 hh.symm)]
      exact ih h.2

theorem alPop_keys_sublist (k : String) (l : List (String × α)) :
    List.Sublist ((alPop k l).map Prod.fst) (l.map Prod.fst) := by
  induction l with
  | nil => simp
  | cons hd tl ih =>
      rw [alPop_cons]
      by_cases h : hd.1 = k
      · rw [if_pos h, List.map_cons]
        exact List.sublist_cons_self _ _
      · rw [if_neg h, List.map_cons, List.map_cons]
        exact ih.cons₂ _

theorem alGet_alPop_self {k : String} {l : List (String × α)}
    (h : (l.map Prod.fst).Nodup) : alGet k (alPop k l) = none := by
  induction l with
  | nil => simp
  | cons hd tl ih =>
      simp only [List.map_cons, List.nodup_cons] at h
      rw [alPop_cons]
      by_cases h2 : hd.1 = k
      · rw [if_pos h2]
        exact alGet_eq_none_of_not_mem (h2 ▸ h.1)
      · rw [if_neg h2, alGet_cons, if_neg h2]
        exact ih h.2

theorem alPop_keys_nodup {k : String} {l : List (String × α)}
    (h : (l.map Prod.fst).Nodup) : ((alPop k l).map Prod.fst).Nodup :=
  h.sublist (alPop_keys_sublist k l)

theorem alGet_stripRec_of_none {k : String} {names : List String} {e : Rec}
    (h : alGet k e = none) : alGet k (stripRec names e) = none := by
  induction names generalizing e with
  | nil => simpa [stripRec] using h
  | cons hd tl ih =>
      simp only [stripRec, List.foldl_cons] at *
      exact ih (alGet_none_alPop h)

theorem alGet_stripRec_of_mem {k : String} {names : List String} {e : Rec}
    (hmem : k ∈ names) (hnd : (e.map Prod.fst).Nodup) :
    alGet k (stripRec names e) = none := by
  induction names generalizing e with
  | nil => cases hmem
  | cons hd tl ih =>
      simp only [stripRec, List.foldl_cons] at *
      rcases List.mem_cons.mp hmem with h | h
      · subst h
        exact alGet_stripRec_of_none (alGet_alPop_self hnd)
      · exact ih h (alPop_keys_nodup hnd)

theorem alGet_stripRec_of_not_mem {k : String} {names : List String} {e : Rec}
    (hmem : k ∈ names → False) :
    alGet k (stripRec names e) = alGet k e := by
  induction names generalizing e with
  | nil => simp [stripRec]
  | cons hd tl ih =>
      simp only [stripRec, List.foldl_cons] at *
      rw [ih fun h => hmem (List.mem_cons_of_mem _ h)]
      refine alGet_alPop_ne ?_ e
      intro h
      exact hmem (by rw [h]; exact List.mem_cons_self _ _)

/-! ## Lemmas: canonical relation rows -/

@[simp] theorem rowInsertEntry_nil (e : String × Prim) : rowInsertEntry e [] = [e] := rfl

theorem rowInsertEntry_cons (e f : String × Prim) (rest : Row) :
    rowInsertEntry e (f :: rest) =
      if strLt f.1 e.1 then f :: rowInsertEntry e rest else e :: f :: rest := rfl

theorem char_toNat_inj {a b : Char} (h : a.toNat = b.toNat) : a = b :=
  Char.eq_of_val_eq (UInt32.eq_of_val_eq (Fin.eq_of_val_eq h))

theorem charListLt_asymm (l1 : List Char) :
    ∀ l2, charListLt l1 l2 = true → charListLt l2 l1 = false := by
  induction l1 with
  | nil =>
      intro l2 h
      cases l2 with
      | nil => cases h
      | cons b bs => rfl
  | cons a as ih =>
      intro l2 h
      cases l2 with
      | nil => cases h
      | cons b bs =>
          simp only [charListLt] at h ⊢
          by_cases hab : a.toNat < b.toNat
          · rw [if_neg (by omega), if_pos hab]
          · rw [if_neg hab] at h
            by_cases hba : b.toNat < a.toNat
            · rw [if_pos hba] at h
              cases h
            · rw [if_neg hba] at h
              rw [if_neg hba, if_neg hab]
              exact ih bs h

theorem charListLt_eq_of_not (l1 : List Char) :
    ∀ l2, charListLt l1 l2 = false → charListLt l2 l1 = false → l1 = l2 := by
  induction l1 with
  | nil =>
      intro l2 h1 h2
      cases l2 with
      | nil => rfl
      | cons b bs => cases h1
  | cons a as ih =>
      intro l2 h1 h2
      cases l2 with
      | nil => cases h2
      | cons b bs =>
          simp only [charListLt] at h1 h2
          by_cases hab : a.toNat < b.toNat
          · rw [if_pos hab] at h1
            cases h1
          · by_cases hba : b.toNat < a.toNat
            · rw [if_pos hba] at h2
              cases h2
            · rw [if_neg hab, if_neg hba] at h1
              rw [if_neg hba, if_neg hab] at h2
              have hc : a = b := char_toNat_inj (by omega)
              rw [hc, ih bs h1 h2]

theorem strLt_asymm {a b : String} (h : strLt a b = true) : strLt b a = false :=
  charListLt_asymm a.data b.data h

theorem strLt_eq_of_not {a b : String} (h1 : strLt a b = false)
    (h2 : strLt b a = false) : a = b := by
  have hd : a.data = b.data := charListLt_eq_of_not a.data b.data h1 h2
  cases a
  cases b
  exact congrArg String.mk hd

theorem mkRow_eq_pair {k1 k2 : String} (h : k1 ≠ k2) (v1 v2 : Prim) :
    mkRow k1 v1 k2 v2 =
      if strLt k2 k1 then [(k2, v2), (k1, v1)] else [(k1, v1), (k2, v2)] := by
  have h1 : alSet k2 v2 (alSet k1 v1 ([] : Row)) = [(k1, v1), (k2, v2)] := by
    rw [alSet_nil, alSet_cons, if_neg h, alSet_nil]
  rw [mkRow, h1]
  simp only [List.foldr, rowInsertEntry_nil, rowInsertEntry_cons]

theorem mkRow_swap {k1 k2 : String} (h : k1 ≠ k2) (v1 v2 : Prim) :
    mkRow k2 v2 k1 v1 = mkRow k1 v1 k2 v2 := by
  rw [mkRow_eq_pair h, mkRow_eq_pair (Ne.symm h)]
  by_cases hlt : strLt k1 k2 = true
  · rw [if_pos hlt, if_neg (by simp [strLt_asymm hlt])]
  · by_cases hlt2 : strLt k2 k1 = true
    · rw [if_neg hlt, if_pos hlt2]
    · have h1 : strLt k1 k2 = false := by simpa using hlt
      have h2 : strLt k2 k1 = false := by simpa using hlt2
      exact absurd (strLt_eq_of_not h1 h2) h

theorem mkRow_inj {k1 k2 : String} (h : k1 ≠ k2) {v1 v2 w1 w2 : Prim}
    (heq : mkRow k1 v1 k2 v2 = mkRow k1 w1 k2 w2) : v1 = w1 ∧ v2 = w2 := by
  rw [mkRow_eq_pair h, mkRow_eq_pair h] at heq
  by_cases hlt : strLt k2 k1 = true
  · rw [if_pos hlt, if_pos hlt] at heq
    simp only [List.cons.injEq, Prod.mk.injEq] at heq
    exact ⟨heq.2.1.2, heq.1.2⟩
  · rw [if_neg hlt, if_neg hlt] at heq
    simp only [List.cons.injEq, Prod.mk.injEq] at heq
    exact ⟨heq.1.2, heq.2.1.2⟩

theorem alGet_mkRow_fst {k1 k2 : String} (h : k1 ≠ k2) (v1 v2 : Prim) :
    alGet k1 (mkRow k1 v1 k2 v2) = some v1 := by
  have hne : k2 ≠ k1 := Ne.symm h
  rw [mkRow_eq_pair h]
  by_cases hlt : strLt k2 k1 = true
  · rw [if_pos hlt, alGet_cons, if_neg hne, alGet_cons]
    simp
  · rw [if_neg hlt, alGet_cons]
    simp

theorem alGet_mkRow_snd {k1 k2 : String} (h : k1 ≠ k2) (v1 v2 : Prim) :
    alGet k2 (mkRow k1 v1 k2 v2) = some v2 := by
  rw [← mkRow_swap h]
  exact alGet_mkRow_fst (Ne.symm h) v2 v1

theorem mem_mkRow {kv : String × Prim} {k1 k2 : String} {v1 v2 : Prim} (h : k1 ≠ k2) :
    kv ∈ mkRow k1 v1 k2 v2 ↔ kv = (k1, v1) ∨ kv = (k2, v2) := by
  rw [mkRow_eq_pair h]
  by_cases hlt : strLt k2 k1 = true
  · rw [if_pos hlt]
    simp [or_comm]
  · rw [if_neg hlt]
    simp

theorem primEq_pint (a b : Int) : primEq (.pint a) (.pint b) = true ↔ a = b := by
  simp [primEq]

theorem rowEq_pair {k1 k2 : String} (h : k1 ≠ k2) (a b c d : Int) :
    rowEq (mkRow k1 (.pint a) k2 (.pint b)) (mkRow k1 (.pint c) k2 (.pint d)) = true ↔
      a = c ∧ b = d := by
  constructor
  · intro hr
    simp only [rowEq, Bool.and_eq_true, List.all_eq_true] at hr
    have h1 := hr.2 (k1, Prim.pint a) ((mem_mkRow h).mpr (Or.inl rfl))
    have h2 := hr.2 (k2, Prim.pint b) ((mem_mkRow h).mpr (Or.inr rfl))
    simp only at h1 h2
    rw [alGet_mkRow_fst h] at h1
    rw [alGet_mkRow_snd h] at h2
    exact ⟨(primEq_pint a c).mp h1, (primEq_pint b d).mp h2⟩
  · rintro ⟨rfl, rfl⟩
    simp only [rowEq, Bool.and_eq_true, List.all_eq_true]
    refine ⟨by simp, ?_⟩
    · intro kv hkv
      rcases (mem_mkRow h).mp hkv with rfl | rfl
      · simp only
        rw [alGet_mkRow_fst h]
        simp [primEq_pint]
      · simp only
        rw [alGet_mkRow_snd h]
        simp [primEq_pint]

theorem alGet_hndl_type (t : String) (n : Int) :
    alGet "type" (hndl t n) = some (.pstr t) := rfl

theorem alGet_hndl_id (t : String) (n : Int) :
    alGet "id" (hndl t n) = some (.pint n) := rfl

theorem dictEq_hndl (t1 t2 : String) (a b : Int) :
    dictEq (hndl t1 a) (hndl t2 b) = true ↔ t1 = t2 ∧ a = b := by
  constructor
  · intro hr
    simp only [dictEq, dictLe, Bool.and_eq_true, List.all_eq_true] at hr
    have h1 := hr.2 ("type", Prim.pstr t1) (by simp [hndl])
    have h2 := hr.2 ("id", Prim.pint a) (by simp [hndl])
    simp only [alGet_hndl_type, alGet_hndl_id] at h1 h2
    simp only [primEq, beq_iff_eq] at h1 h2
    exact ⟨h1, h2⟩
  · rintro ⟨rfl, rfl⟩
    simp only [dictEq, dictLe, Bool.and_eq_true, List.all_eq_true]
    refine ⟨by simp [hndl], ?_⟩
    intro kv hkv
    simp only [hndl, List.mem_cons, List.not_mem_nil, or_false] at hkv
    rcases hkv with rfl | rfl
    · simp only [alGet_hndl_type]
      simp [primEq]
    · simp only [alGet_hndl_id]
      simp [primEq]

theorem hndl_inj {t1 t2 : String} {a b : Int} (h : hndl t1 a = hndl t2 b) :
    t1 = t2 ∧ a = b := by
  simp only [hndl, List.cons.injEq, Prod.mk.injEq] at h
  exact ⟨by simpa using h.1.2, by simpa using h.2.1.2⟩

/-! ## Lemmas: stable sort by id -/

theorem mem_insById (d e : Dict) (l : List Dict) :
    e ∈ insById d l ↔ e ∈ l ∨ e = d := by
  induction l with
  | nil => simp [insById, eq_comm]
  | cons hd tl ih =>
      by_cases h : idKey hd ≤ idKey d
      · simp only [insById, if_pos h, List.mem_cons, ih]
        tauto
      · simp only [insById, if_neg h, List.mem_cons]
        tauto

theorem mem_sortById (d : Dict) (l : List Dict) :
    d ∈ sortById l ↔ d ∈ l := by
  suffices h : ∀ acc, d ∈ l.foldl (fun acc e => insById e acc) acc ↔ d ∈ l ∨ d ∈ acc by
    simpa [sortById] using (h [])
  induction l with
  | nil => simp
  | cons hd tl ih =>
      intro acc
      simp only [List.foldl_cons, ih, mem_insById, List.mem_cons]
      tauto

/-! ## Lemmas: the write path of the pivot middleware -/

theorem alGet_append (k : String) (l1 l2 : List (String × α)) :
    alGet k (l1 ++ l2) = match alGet k l1 with
      | some v => some v
      | none => alGet k l2 := by
  induction l1 with
  | nil => simp
  | cons hd tl ih =>
      rw [List.cons_append, alGet_cons, alGet_cons]
      by_cases h : hd.1 = k
      · simp [h]
      · simp [h, ih]

theorem mem_alSet {p : String × α} {k : String} {v : α} {l : List (String × α)}
    (h : p ∈ alSet k v l) : p ∈ l ∨ p = (k, v) := by
  induction l with
  | nil => simpa using h
  | cons hd tl ih =>
      rw [alSet_cons] at h
      by_cases h2 : hd.1 = k
      · rw [if_pos h2] at h
        rcases List.mem_cons.mp h with h3 | hm
        · right
          rw [h3, h2]
        · left
          exact List.mem_cons_of_mem _ hm
      · rw [if_neg h2] at h
        rcases List.mem_cons.mp h with h3 | hm
        · left
          rw [h3]
          exact List.mem_cons_self _ _
        · rcases ih hm with h3 | h3
          · left
            exact List.mem_cons_of_mem _ h3
          · right
            exact h3

theorem is_entity_multiSpec (T fld L rf t : String) :
    is_entity (multiSpec T fld L rf t) = false := rfl

theorem is_multi_entity_multiSpec (T fld L rf t : String) :
    is_multi_entity (multiSpec T fld L rf t) = true := rfl

theorem is_link_multiSpec (T fld L rf t : String) :
    is_link (multiSpec T fld L rf t) = true := rfl

theorem this_key_multiSpec (T fld L rf t : String) :
    this_key (multiSpec T fld L rf t) = T ++ "." ++ fld := rfl

theorem link_keys_multiSpec (T fld L rf t : String) :
    link_keys (multiSpec T fld L rf t) = [(L, L ++ "." ++ rf)] := by
  simp [link_keys, multiSpec, alGet_cons]

theorem multiSpec_name (T fld L rf t : String) :
    (multiSpec T fld L rf t).name = fld := rfl

theorem multiSpec_table (T fld L rf t : String) :
    (multiSpec T fld L rf t).table = some t := rfl

theorem itemsToDicts_handles (lnk : String) (hs : List Int) (acc : List Dict) :
    itemsToDicts acc (hs.map fun m => Item.idict (hndl lnk m)) =
      .ok (acc ++ hs.map fun m => hndl lnk m) := by
  induction hs generalizing acc with
  | nil => simp [itemsToDicts]
  | cons m rest ih =>
      simp only [List.map_cons, itemsToDicts]
      rw [if_pos (show (!List.isEmpty (hndl lnk m)) = true from rfl), ih]
      simp

theorem fieldLinkDicts_multi_none {e : Rec} (T fld L rf t : String)
    (h : alGet fld e = none) :
    fieldLinkDicts e (multiSpec T fld L rf t) = .ok [] := by
  simp only [fieldLinkDicts, is_entity_multiSpec, Bool.false_eq_true, if_false,
    multiSpec_name, h]

theorem fieldLinkDicts_multi_links {e : Rec} (T fld L rf t : String) {hs : List Int}
    (h : alGet fld e = some (linksVal L hs)) :
    fieldLinkDicts e (multiSpec T fld L rf t) =
      .ok (hs.map fun m => hndl L m) := by
  simp only [fieldLinkDicts, is_entity_multiSpec, Bool.false_eq_true, if_false,
    multiSpec_name, h, linksVal]
  cases hs with
  | nil => simp [Value.truthy]
  | cons m rest =>
      rw [if_pos (show Value.truthy
        (.vlist ((m :: rest).map fun k => Item.idict (hndl L k))) = true from rfl)]
      rw [itemsToDicts_handles]
      simp

theorem rowOfLink_multiSpec (T fld L rf t : String) (n m : Int) :
    rowOfLink (multiSpec T fld L rf t) (.pint n) (hndl L m) =
      .ok (mkRow (L ++ "." ++ rf) (.pint m) (T ++ "." ++ fld) (.pint n)) := by
  simp only [rowOfLink, alGet_hndl_type, alGet_hndl_id, link_keys_multiSpec,
    this_key_multiSpec, alGet_cons, exceptOkBind]
  simp

theorem ltAdd_char {slk stk t : String} (hks : slk ≠ stk) {lt : LinkTables}
    (hwf : ltWF slk stk t lt) (a0 b0 : Int) :
    ltWF slk stk t (ltAdd lt t (mkRow slk (.pint a0) stk (.pint b0))) ∧
    ∀ a b : Int,
      ltMem (ltAdd lt t (mkRow slk (.pint a0) stk (.pint b0))) t
          (mkRow slk (.pint a) stk (.pint b)) ↔
        ltMem lt t (mkRow slk (.pint a) stk (.pint b)) ∨ (a = a0 ∧ b = b0) := by
  rcases hwf with ⟨hlen, hkeys, hfam⟩
  match lt, hlen with
  | [], _ =>
      constructor
      · refine ⟨by simp [ltAdd, alGet_nil, rowSetAdd], ?_, ?_⟩
        · intro p hp
          simp only [ltAdd, alGet_nil, rowSetAdd, List.any_nil, List.nil_append,
            Bool.false_eq_true, if_false] at hp
          simp only [List.mem_singleton] at hp
          rw [hp]
        · intro p hp r hr
          simp only [ltAdd, alGet_nil, rowSetAdd, List.any_nil, List.nil_append,
            Bool.false_eq_true, if_false] at hp
          simp only [List.mem_singleton] at hp
          rw [hp] at hr
          simp only [List.mem_singleton] at hr
          exact ⟨a0, b0, hr⟩
      · intro a b
        simp only [ltMem, ltAdd, alGet_nil, rowSetAdd, List.any_nil, List.nil_append,
          Bool.false_eq_true, if_false]
        constructor
        · rintro ⟨rs, hrs, hmem⟩
          rw [alGet_cons, if_pos rfl] at hrs
          cases hrs
          simp only [List.mem_singleton] at hmem
          have := mkRow_inj hks hmem
          right
          exact ⟨Prim.pint.inj this.1, Prim.pint.inj this.2⟩
        · rintro (⟨rs, hrs, _⟩ | ⟨rfl, rfl⟩)
          · simp at hrs
          · exact ⟨_, by rw [alGet_cons, if_pos rfl], List.mem_singleton.mpr rfl⟩
  | (k0, rs) :: rest, hlen =>
      have hrest : rest = [] := by
        have : rest.length = 0 := by
          simp only [List.length_cons] at hlen
          omega
        exact List.eq_nil_of_length_eq_zero this
      subst hrest
      have hk0 : t = k0 := (hkeys (k0, rs) (List.mem_singleton.mpr rfl)).symm
      subst hk0
      have hget : alGet t [(t, rs)] = some rs := by rw [alGet_cons, if_pos rfl]
      have hfam2 : ∀ r ∈ rs, ∃ m n : Int, r = mkRow slk (.pint m) stk (.pint n) :=
        hfam (t, rs) (List.mem_singleton.mpr rfl)
      have hset : ltAdd [(t, rs)] t (mkRow slk (.pint a0) stk (.pint b0)) =
          [(t, rowSetAdd rs (mkRow slk (.pint a0) stk (.pint b0)))] := by
        simp only [ltAdd, hget]
        rw [alSet_cons, if_pos rfl]
      have hmemAdd : ∀ a b : Int,
          mkRow slk (.pint a) stk (.pint b) ∈
              rowSetAdd rs (mkRow slk (.pint a0) stk (.pint b0)) ↔
            mkRow slk (.pint a) stk (.pint b) ∈ rs ∨ (a = a0 ∧ b = b0) := by
        intro a b
        unfold rowSetAdd
        by_cases hany : rs.any (rowEq (mkRow slk (.pint a0) stk (.pint b0))) = true
        · rw [if_pos hany]
          rcases List.any_eq_true.mp hany with ⟨r0, hr0mem, hr0eq⟩
          rcases hfam2 r0 hr0mem with ⟨m0, n0, rfl⟩
          have := (rowEq_pair hks a0 b0 m0 n0).mp hr0eq
          constructor
          · intro hm
            left
            exact hm
          · rintro (hm | ⟨rfl, rfl⟩)
            · exact hm
            · rw [this.1, this.2]
              exact hr0mem
        · rw [if_neg hany]
          rw [List.mem_append, List.mem_singleton]
          constructor
          · rintro (hm | heq)
            · left; exact hm
            · have := mkRow_inj hks heq
              right
              exact ⟨Prim.pint.inj this.1, Prim.pint.inj this.2⟩
          · rintro (hm | ⟨rfl, rfl⟩)
            · left; exact hm
            · right; rfl
      constructor
      · rw [hset]
        refine ⟨by simp, ?_, ?_⟩
        · intro p hp
          simp only [List.mem_singleton] at hp
          rw [hp]
        · intro p hp r hr
          simp only [List.mem_singleton] at hp
          rw [hp] at hr
          simp only at hr
          rcases List.mem_append.mp ((by
            unfold rowSetAdd at hr
            split at hr
            · exact List.mem_append.mpr (Or.inl hr)
            · exact hr) : r ∈ rs ++ [mkRow slk (.pint a0) stk (.pint b0)]) with hm | hm
          · exact hfam2 r hm
          · simp only [List.mem_singleton] at hm
            exact ⟨a0, b0, hm⟩
      · intro a b
        rw [hset]
        simp only [ltMem]
        constructor
        · rintro ⟨rs2, hrs2, hmem⟩
          rw [alGet_cons, if_pos rfl] at hrs2
          cases hrs2
          rcases (hmemAdd a b).mp hmem with hm | hm
          · left
            exact ⟨rs, hget, hm⟩
          · right
            exact hm
        · rintro (⟨rs2, hrs2, hmem⟩ | hm)
          · rw [hget] at hrs2
            cases hrs2
            exact ⟨_, by rw [alGet_cons, if_pos rfl], (hmemAdd a b).mpr (Or.inl hmem)⟩
          · exact ⟨_, by rw [alGet_cons, if_pos rfl], (hmemAdd a b).mpr (Or.inr hm)⟩

theorem linksVal_inj {L : String} {hs hs2 : List Int}
    (h : linksVal L hs = linksVal L hs2) : hs = hs2 := by
  simp only [linksVal, Value.vlist.injEq] at h
  have hinj : Function.Injective (fun m : Int => Item.idict (hndl L m)) := by
    intro x y hxy
    simp only [Item.idict.injEq] at hxy
    exact (hndl_inj hxy).2
  exact List.map_injective_iff.mpr hinj h

theorem emitRowsLoop_char (T fld L rf t : String)
    (hks : (L ++ "." ++ rf) ≠ (T ++ "." ++ fld)) (n : Int) (hs : List Int)
    {lt : LinkTables} (hwf : ltWF (L ++ "." ++ rf) (T ++ "." ++ fld) t lt) :
    ∃ lt2, emitRowsLoop (multiSpec T fld L rf t) t (.pint n) lt
        (hs.map fun m => hndl L m) = .ok lt2 ∧
      ltWF (L ++ "." ++ rf) (T ++ "." ++ fld) t lt2 ∧
      ∀ a b : Int,
        ltMem lt2 t (mkRow (L ++ "." ++ rf) (.pint a) (T ++ "." ++ fld) (.pint b)) ↔
          ltMem lt t (mkRow (L ++ "." ++ rf) (.pint a) (T ++ "." ++ fld) (.pint b)) ∨
            (a ∈ hs ∧ b = n) := by
  induction hs generalizing lt with
  | nil => exact ⟨lt, rfl, hwf, by simp⟩
  | cons m rest ih =>
      simp only [List.map_cons, emitRowsLoop, rowOfLink_multiSpec, exceptOkBind]
      obtain ⟨hwf2, hmem2⟩ := ltAdd_char hks hwf m n
      obtain ⟨lt2, heq, hwf3, hmem3⟩ := ih hwf2
      refine ⟨lt2, heq, hwf3, ?_⟩
      intro a b
      rw [hmem3, hmem2 a b]
      constructor
      · rintro ((hm | ⟨rfl, rfl⟩) | ⟨hm, rfl⟩)
        · left; exact hm
        · right; exact ⟨List.mem_cons_self _ _, rfl⟩
        · right; exact ⟨List.mem_cons_of_mem _ hm, rfl⟩
      · rintro (hm | ⟨hm, rfl⟩)
        · left; left; exact hm
        · rcases List.mem_cons.mp hm with rfl | hm2
          · left; right; exact ⟨rfl, rfl⟩
          · right; exact ⟨hm2, rfl⟩

theorem emitFieldRows_char (T fld L rf t : String)
    (hks : (L ++ "." ++ rf) ≠ (T ++ "." ++ fld)) {e : Rec} {n : Int}
    (hid : alGet "id" e = some (Value.int n))
    (hval : alGet fld e = none ∨ ∃ hs : List Int, alGet fld e = some (linksVal L hs))
    {lt : LinkTables} (hwf : ltWF (L ++ "." ++ rf) (T ++ "." ++ fld) t lt) :
    ∃ lt2, emitFieldRows e (multiSpec T fld L rf t) lt = .ok lt2 ∧
      ltWF (L ++ "." ++ rf) (T ++ "." ++ fld) t lt2 ∧
      ∀ a b : Int,
        ltMem lt2 t (mkRow (L ++ "." ++ rf) (.pint a) (T ++ "." ++ fld) (.pint b)) ↔
          ltMem lt t (mkRow (L ++ "." ++ rf) (.pint a) (T ++ "." ++ fld) (.pint b)) ∨
            ((∃ hs : List Int, alGet fld e = some (linksVal L hs) ∧ a ∈ hs) ∧ b = n) := by
  rcases hval with hnone | ⟨hs, hsome⟩
  · refine ⟨lt, ?_, hwf, ?_⟩
    · simp only [emitFieldRows, multiSpec_table, exceptOkBind, hid,
        fieldLinkDicts_multi_none T fld L rf t hnone]
      rfl
    · intro a b
      simp only [hnone]
      simp
  · obtain ⟨lt2, heq, hwf2, hmem⟩ := emitRowsLoop_char T fld L rf t hks n hs hwf
    refine ⟨lt2, ?_, hwf2, ?_⟩
    · simp only [emitFieldRows, multiSpec_table, exceptOkBind, hid,
        fieldLinkDicts_multi_links T fld L rf t hsome]
      exact heq
    · intro a b
      rw [hmem a b, hsome]
      constructor
      · rintro (hm | ⟨hm, rfl⟩)
        · left; exact hm
        · right
          exact ⟨⟨hs, rfl, hm⟩, rfl⟩
      · rintro (hm | ⟨⟨hs2, hv, hm⟩, rfl⟩)
        · left; exact hm
        · right
          refine ⟨?_, rfl⟩
          have := linksVal_inj (Option.some.inj hv)
          rw [this]
          exact hm

theorem writeEntity_char (T fld L rf t : String)
    (hks : (L ++ "." ++ rf) ≠ (T ++ "." ++ fld)) {e : Rec} {n : Int}
    (he : e ≠ [])
    (hid : alGet "id" e = some (Value.int n))
    (hval : alGet fld e = none ∨ ∃ hs : List Int, alGet fld e = some (linksVal L hs))
    (dropNames : List String)
    {lt : LinkTables} (hwf : ltWF (L ++ "." ++ rf) (T ++ "." ++ fld) t lt) :
    ∃ lt2, writeEntity [multiSpec T fld L rf t] dropNames e lt =
        .ok (stripRec dropNames e, lt2) ∧
      ltWF (L ++ "." ++ rf) (T ++ "." ++ fld) t lt2 ∧
      ∀ a b : Int,
        ltMem lt2 t (mkRow (L ++ "." ++ rf) (.pint a) (T ++ "." ++ fld) (.pint b)) ↔
          ltMem lt t (mkRow (L ++ "." ++ rf) (.pint a) (T ++ "." ++ fld) (.pint b)) ∨
            ((∃ hs : List Int, alGet fld e = some (linksVal L hs) ∧ a ∈ hs) ∧ b = n) := by
  obtain ⟨lt2, heq, hwf2, hmem⟩ := emitFieldRows_char T fld L rf t hks hid hval hwf
  refine ⟨lt2, ?_, hwf2, hmem⟩
  have hne : e.isEmpty = false := by
    cases e with
    | nil => exact absurd rfl he
    | cons hd tl => rfl
  simp only [writeEntity, hne, Bool.false_eq_true, if_false, entityFieldsLoop, heq,
    exceptOkBind]

theorem writeTableLoop_char (T fld L rf t : String)
    (hks : (L ++ "." ++ rf) ≠ (T ++ "." ++ fld)) {tbl : Table}
    (hwfT : tableWF fld L tbl)
    {lt : LinkTables} (hwf : ltWF (L ++ "." ++ rf) (T ++ "." ++ fld) t lt)
    (accT : Table) :
    ∃ lt2, writeTableLoop [multiSpec T fld L rf t] ["id", "type", fld] tbl (accT, lt) =
        .ok (accT ++ stripTable ["id", "type", fld] tbl, lt2) ∧
      ltWF (L ++ "." ++ rf) (T ++ "." ++ fld) t lt2 ∧
      ∀ a b : Int,
        ltMem lt2 t (mkRow (L ++ "." ++ rf) (.pint a) (T ++ "." ++ fld) (.pint b)) ↔
          ltMem lt t (mkRow (L ++ "." ++ rf) (.pint a) (T ++ "." ++ fld) (.pint b)) ∨
            emitsLink fld L tbl a b := by
  induction tbl generalizing lt accT with
  | nil =>
      refine ⟨lt, ?_, hwf, ?_⟩
      · simp [writeTableLoop, stripTable]
      · intro a b
        simp [emitsLink]
  | cons ke rest ih =>
      have hwfT2 : tableWF fld L rest := fun p hp => hwfT p (List.mem_cons_of_mem _ hp)
      obtain ⟨⟨nk, hparse, hidk⟩, hrest⟩ := hwfT ke (List.mem_cons_self _ _)
      by_cases hke : ke.2 = []
      · have hemp : ke.2.isEmpty = true := by rw [hke]; rfl
        obtain ⟨lt2, heq, hwf2, hmem⟩ := ih hwfT2 hwf (accT ++ [(ke.1, ke.2)])
        refine ⟨lt2, ?_, hwf2, ?_⟩
        · simp only [writeTableLoop, writeEntity, hemp, if_true, exceptOkBind, heq]
          rw [show (accT ++ [(ke.1, ke.2)]) ++ stripTable ["id", "type", fld] rest =
            accT ++ ((ke.1, ke.2) :: stripTable ["id", "type", fld] rest) by simp]
          rw [show ((ke.1, ke.2) :: stripTable ["id", "type", fld] rest) =
            stripTable ["id", "type", fld] (ke :: rest) by
              simp only [stripTable, List.map_cons, hemp, if_true]]
        · intro a b
          rw [hmem a b]
          constructor
          · rintro (hm | hm)
            · left; exact hm
            · right
              rcases hm with ⟨p, hp, hm⟩
              exact ⟨p, List.mem_cons_of_mem _ hp, hm⟩
          · rintro (hm | ⟨p, hp, hpe, hm⟩)
            · left; exact hm
            · rcases List.mem_cons.mp hp with rfl | hp2
              · exact absurd hke hpe
              · right; exact ⟨p, hp2, hpe, hm⟩
      · obtain ⟨hnodup, hval⟩ := hrest hke
        obtain ⟨lt1, heq1, hwf1, hmem1⟩ :=
          writeEntity_char T fld L rf t hks hke (hidk hke) hval ["id", "type", fld] hwf
        obtain ⟨lt2, heq2, hwf2, hmem2⟩ := ih hwfT2 hwf1
          (accT ++ [(ke.1, stripRec ["id", "type", fld] ke.2)])
        refine ⟨lt2, ?_, hwf2, ?_⟩
        · simp only [writeTableLoop, heq1, exceptOkBind, heq2]
          have hemp : ke.2.isEmpty = false := by
            cases h : ke.2 with
            | nil => exact absurd h hke
            | cons hd tl => rfl
          rw [show (accT ++ [(ke.1, stripRec ["id", "type", fld] ke.2)]) ++
              stripTable ["id", "type", fld] rest =
            accT ++ ((ke.1, stripRec ["id", "type", fld] ke.2) ::
              stripTable ["id", "type", fld] rest) by simp]
          rw [show ((ke.1, stripRec ["id", "type", fld] ke.2) ::
              stripTable ["id", "type", fld] rest) =
            stripTable ["id", "type", fld] (ke :: rest) by
              simp only [stripTable, List.map_cons, hemp, Bool.false_eq_true, if_false]]
        · intro a b
          rw [hmem2 a b, hmem1 a b]
          constructor
          · rintro ((hm | ⟨hv, rfl⟩) | hm)
            · left; exact hm
            · right
              exact ⟨ke, List.mem_cons_self _ _, hke, hidk hke, hv⟩
            · right
              rcases hm with ⟨p, hp, hm⟩
              exact ⟨p, List.mem_cons_of_mem _ hp, hm⟩
          · rintro (hm | ⟨p, hp, hpe, hpid, hs2, hv2, hm2⟩)
            · left; left; exact hm
            · rcases List.mem_cons.mp hp with rfl | hp2
              · left
                right
                have hbn : b = nk := by
                  rw [hidk hke] at hpid
                  have h1 := Option.some.inj hpid
                  have h2 : nk = b := by simpa [Value.int] using h1
                  exact h2.symm
                exact ⟨⟨hs2, hv2, hm2⟩, hbn⟩
              · right
                exact ⟨p, hp2, hpe, hpid, hs2, hv2, hm2⟩

theorem ltWF_swap {slk stk t : String} (hks : slk ≠ stk) {lt : LinkTables}
    (h : ltWF slk stk t lt) : ltWF stk slk t lt := by
  refine ⟨h.1, h.2.1, ?_⟩
  intro p hp r hr
  obtain ⟨m, n, rfl⟩ := h.2.2 p hp r hr
  exact ⟨n, m, (mkRow_swap hks (Prim.pint m) (Prim.pint n)).symm⟩

theorem ltWF_nil (slk stk t : String) : ltWF slk stk t [] := by
  refine ⟨by simp, by simp, by simp⟩

theorem ltMem_nil (tn : String) (r : Row) : ¬ ltMem [] tn r := by
  rintro ⟨rs, hrs, _⟩
  simp at hrs

theorem writeTable_char (T fld L rf t : String) (fields : List FieldSpec)
    (hf : (fieldsOf fields T).filter is_link = [multiSpec T fld L rf t])
    (hks : (L ++ "." ++ rf) ≠ (T ++ "." ++ fld)) {tbl : Table}
    (hwfT : tableWF fld L tbl)
    {lt : LinkTables} (hwf : ltWF (L ++ "." ++ rf) (T ++ "." ++ fld) t lt) :
    ∃ lt2, writeTable fields T tbl lt = .ok (stripTable ["id", "type", fld] tbl, lt2) ∧
      ltWF (L ++ "." ++ rf) (T ++ "." ++ fld) t lt2 ∧
      ∀ a b : Int,
        ltMem lt2 t (mkRow (L ++ "." ++ rf) (.pint a) (T ++ "." ++ fld) (.pint b)) ↔
          ltMem lt t (mkRow (L ++ "." ++ rf) (.pint a) (T ++ "." ++ fld) (.pint b)) ∨
            emitsLink fld L tbl a b := by
  obtain ⟨lt2, heq, hwf2, hmem⟩ := writeTableLoop_char T fld L rf t hks hwfT hwf []
  refine ⟨lt2, ?_, hwf2, hmem⟩
  simp only [writeTable, hf]
  rw [show ("id" :: "type" :: ([multiSpec T fld L rf t].map fun f => f.name)) =
    ["id", "type", fld] from rfl]
  rw [heq]
  simp

theorem writeAB_char (A B fn gn t : String)
    (hAB : A ≠ B) (htA : t ≠ A) (htB : t ≠ B)
    (hks : (B ++ "." ++ gn) ≠ (A ++ "." ++ fn))
    {data : Data}
    (hWA : tableWF fn B ((alGet A data).getD []))
    (hWB : tableWF gn A ((alGet B data).getD []))
    (htN : alGet t data = none) :
    ∃ dw R,
      write [A, B] [multiSpec A fn B gn t, multiSpec B gn A fn t] data = .ok dw ∧
      (∀ r ∈ R, ∃ a b : Int, r = rowAt A fn B gn a b) ∧
      (∀ a b : Int, (rowAt A fn B gn a b ∈ R ↔
        emitsLink fn B ((alGet A data).getD []) a b ∨
        emitsLink gn A ((alGet B data).getD []) b a)) ∧
      ((R = [] ∧ alGet t dw = none) ∨ alGet t dw = some (rowsToTable R)) ∧
      alGet A dw = Option.map (stripTable ["id", "type", fn]) (alGet A data) ∧
      alGet B dw = Option.map (stripTable ["id", "type", gn]) (alGet B data) ∧
      ∀ s, s ≠ A → s ≠ B → s ≠ t → alGet s dw = alGet s data := by
  have hfA : (fieldsOf [multiSpec A fn B gn t, multiSpec B gn A fn t] A).filter is_link =
      [multiSpec A fn B gn t] := by
    simp [fieldsOf, multiSpec, Ne.symm hAB, is_link, is_entity, is_multi_entity]
  have hfB : (fieldsOf [multiSpec A fn B gn t, multiSpec B gn A fn t] B).filter is_link =
      [multiSpec B gn A fn t] := by
    simp [fieldsOf, multiSpec, hAB, is_link, is_entity, is_multi_entity]
  obtain ⟨lt1, heqA, hwf1, hmem1⟩ :=
    writeTable_char A fn B gn t _ hfA hks hWA (ltWF_nil _ _ t)
  -- the second step reads the B table of the data produced by the first
  have hd1B : ∀ d1 : Data,
      (alHasKey A data = true →
        d1 = alSet A (stripTable ["id", "type", fn] ((alGet A data).getD [])) data) →
      (alHasKey A data = false → d1 = data) → alGet B d1 = alGet B data := by
    intro d1 h1 h2
    by_cases hA : alHasKey A data = true
    · rw [h1 hA]
      exact alGet_alSet_ne hAB _ data
    · rw [h2 (by simpa using hA)]
  obtain ⟨lt2, heqB, hwf2g, hmem2g⟩ :=
    writeTable_char B gn A fn t _ hfB (Ne.symm hks) hWB (ltWF_swap hks hwf1)
  -- characterize the final accumulated rows in the f orientation
  have hwf2 : ltWF (B ++ "." ++ gn) (A ++ "." ++ fn) t lt2 := ltWF_swap (Ne.symm hks) hwf2g
  have hmem2 : ∀ a b : Int,
      ltMem lt2 t (mkRow (B ++ "." ++ gn) (.pint a) (A ++ "." ++ fn) (.pint b)) ↔
        ltMem lt1 t (mkRow (B ++ "." ++ gn) (.pint a) (A ++ "." ++ fn) (.pint b)) ∨
          emitsLink gn A ((alGet B data).getD []) b a := by
    intro a b
    have h := hmem2g b a
    rw [← mkRow_swap (Ne.symm hks) (Prim.pint b) (Prim.pint a)] at h
    exact h
  have hmemAll : ∀ a b : Int,
      ltMem lt2 t (mkRow (B ++ "." ++ gn) (.pint a) (A ++ "." ++ fn) (.pint b)) ↔
        emitsLink fn B ((alGet A data).getD []) a b ∨
        emitsLink gn A ((alGet B data).getD []) b a := by
    intro a b
    rw [hmem2 a b, hmem1 a b]
    constructor
    · rintro ((hm | hm) | hm)
      · exact absurd hm (ltMem_nil t _)
      · exact Or.inl hm
      · exact Or.inr hm
    · rintro (hm | hm)
      · exact Or.inl (Or.inr hm)
      · exact Or.inr hm
  -- the shape of the final accumulator
  have hshape : lt2 = [] ∨ ∃ R, lt2 = [(t, R)] := by
    obtain ⟨hlen, hkeys, _⟩ := hwf2
    match lt2, hlen, hkeys with
    | [], _, _ => exact Or.inl rfl
    | [(k0, R0)], _, hkeys =>
        right
        refine ⟨R0, ?_⟩
        have hk : k0 = t := hkeys (k0, R0) (List.mem_singleton.mpr rfl)
        rw [hk]
    | p :: q :: rest, hlen, _ => simp at hlen
  -- run the two write steps
  have hBd1 : alGet B (if alHasKey A data then
      alSet A (stripTable ["id", "type", fn] ((alGet A data).getD [])) data else data) =
      alGet B data := by
    by_cases hA : alHasKey A data = true
    · rw [if_pos hA]
      exact alGet_alSet_ne hAB _ data
    · rw [if_neg (by simpa using hA)]
  have hstep1 : writeStep [multiSpec A fn B gn t, multiSpec B gn A fn t] (data, []) A =
      .ok ((if alHasKey A data then
        alSet A (stripTable ["id", "type", fn] ((alGet A data).getD [])) data else data),
        lt1) := by
    simp only [writeStep, heqA, exceptOkBind]
    rfl
  have hstep2 : writeStep [multiSpec A fn B gn t, multiSpec B gn A fn t]
      ((if alHasKey A data then
        alSet A (stripTable ["id", "type", fn] ((alGet A data).getD [])) data else data),
        lt1) B =
      .ok ((if alHasKey B (if alHasKey A data then
          alSet A (stripTable ["id", "type", fn] ((alGet A data).getD [])) data else data)
        then alSet B (stripTable ["id", "type", gn] ((alGet B data).getD []))
          (if alHasKey A data then
            alSet A (stripTable ["id", "type", fn] ((alGet A data).getD [])) data else data)
        else (if alHasKey A data then
          alSet A (stripTable ["id", "type", fn] ((alGet A data).getD [])) data else data)),
        lt2) := by
    simp only [writeStep, hBd1, heqB, exceptOkBind]
    rfl
  have hcollect : collectRows [A, B] [multiSpec A fn B gn t, multiSpec B gn A fn t] data =
      .ok ((if alHasKey B (if alHasKey A data then
          alSet A (stripTable ["id", "type", fn] ((alGet A data).getD [])) data else data)
        then alSet B (stripTable ["id", "type", gn] ((alGet B data).getD []))
          (if alHasKey A data then
            alSet A (stripTable ["id", "type", fn] ((alGet A data).getD [])) data else data)
        else (if alHasKey A data then
          alSet A (stripTable ["id", "type", fn] ((alGet A data).getD [])) data else data)),
        lt2) := by
    simp only [collectRows, List.foldlM, hstep1, exceptOkBind, hstep2]
    rfl
  set d1 := (if alHasKey A data then
    alSet A (stripTable ["id", "type", fn] ((alGet A data).getD [])) data else data) with hd1def
  set d2 := (if alHasKey B d1
    then alSet B (stripTable ["id", "type", gn] ((alGet B data).getD [])) d1
    else d1) with hd2def
  -- lookups in the stripped data
  have hA2 : alGet A d2 = Option.map (stripTable ["id", "type", fn]) (alGet A data) := by
    have h1 : alGet A d2 = alGet A d1 := by
      rw [hd2def]
      by_cases hB : alHasKey B d1 = true
      · rw [if_pos hB]
        exact alGet_alSet_ne (Ne.symm hAB) _ d1
      · rw [if_neg (by simpa using hB)]
    rw [h1, hd1def]
    by_cases hA : alHasKey A data = true
    · rw [if_pos hA, alGet_alSet_self]
      obtain ⟨ta, hta⟩ := Option.isSome_iff_exists.mp (by simpa [alHasKey] using hA)
      rw [hta]
      simp
    · have : alGet A data = none := by
        simp only [alHasKey, Bool.not_eq_true] at hA
        exact Option.not_isSome_iff_eq_none.mp (by simpa using hA)
      rw [if_neg (by simpa using hA), this]
      simp [this]
  have hB2 : alGet B d2 = Option.map (stripTable ["id", "type", gn]) (alGet B data) := by
    rw [hd2def]
    by_cases hB : alHasKey B d1 = true
    · rw [if_pos hB, alGet_alSet_self]
      have hBsome := Option.isSome_iff_exists.mp (by simpa [alHasKey, hBd1] using hB)
      obtain ⟨tb, htb⟩ := hBsome
      rw [htb]
      simp
    · have : alGet B data = none := by
        rw [← hBd1]
        simp only [alHasKey, Bool.not_eq_true] at hB
        exact Option.not_isSome_iff_eq_none.mp (by simpa using hB)
      rw [if_neg (by simpa using hB), hBd1, this]
      simp
  have hS2 : ∀ s, s ≠ A → s ≠ B → alGet s d2 = alGet s data := by
    intro s hsA hsB
    have h1 : alGet s d2 = alGet s d1 := by
      rw [hd2def]
      by_cases hB : alHasKey B d1 = true
      · rw [if_pos hB]
        exact alGet_alSet_ne (Ne.symm hsB) _ d1
      · rw [if_neg (by simpa using hB)]
    rw [h1, hd1def]
    by_cases hA : alHasKey A data = true
    · rw [if_pos hA]
      exact alGet_alSet_ne (Ne.symm hsA) _ data
    · rw [if_neg (by simpa using hA)]
  rcases hshape with hnil | ⟨R, hR⟩
  · -- no rows emitted at all: the pivot table is absent
    subst hnil
    refine ⟨d2, [], ?_, by simp, ?_, ?_, hA2, hB2, ?_⟩
    · simp only [write, hcollect, exceptOkBind]
      rw [show ltSorted [] = [] from rfl]
      rfl
    · intro a b
      simp only [rowAt]
      have h := hmemAll a b
      simp only [List.not_mem_nil, false_iff]
      intro hcontra
      exact ltMem_nil t _ (h.mpr hcontra)
    · left
      refine ⟨rfl, ?_⟩
      rw [hS2 t htA htB]
      exact htN
    · intro s hsA hsB hst
      exact hS2 s hsA hsB
  · -- the emitted rows land in the pivot table named t
    subst hR
    have hgetR : alGet t [(t, R)] = some R := by rw [alGet_cons, if_pos rfl]
    have hsort : ltSorted [(t, R)] = [(t, R)] := rfl
    refine ⟨alSet t (rowsToTable R) d2, R, ?_, ?_, ?_, ?_, ?_, ?_, ?_⟩
    · simp only [write, hcollect, exceptOkBind, hsort]
      rfl
    · intro r hr
      obtain ⟨m, n, hmn⟩ := hwf2.2.2 (t, R) (List.mem_singleton.mpr rfl) r hr
      exact ⟨m, n, hmn⟩
    · intro a b
      simp only [rowAt]
      have h := hmemAll a b
      rw [← h]
      simp only [ltMem, hgetR]
      constructor
      · intro hm
        exact ⟨R, rfl, hm⟩
      · rintro ⟨rs, hrs, hm⟩
        cases hrs
        exact hm
    · right
      exact alGet_alSet_self t _ d2
    · rw [alGet_alSet_ne htA _ d2]
      exact hA2
    · rw [alGet_alSet_ne htB _ d2]
      exact hB2
    · intro s hsA hsB hst
      rw [alGet_alSet_ne (Ne.symm hst) _ d2]
      exact hS2 s hsA hsB

/-! ## Lemmas: the read path of the pivot middleware -/

theorem alGet_rowToRec (k : String) (r : Row) :
    alGet k (rowToRec r) = (alGet k r).map Value.vprim := by
  induction r with
  | nil => simp [rowToRec]
  | cons hd tl ih =>
      simp only [rowToRec, List.map_cons] at *
      rw [alGet_cons, alGet_cons]
      by_cases h : hd.1 = k
      · simp [h]
      · simp [h, ih]

theorem joinRowLinks_multiSpec (T fld L rf t : String)
    (hks : (L ++ "." ++ rf) ≠ (T ++ "." ++ fld)) (m n : Int) :
    joinRowLinks (multiSpec T fld L rf t)
        (rowToRec (mkRow (L ++ "." ++ rf) (.pint m) (T ++ "." ++ fld) (.pint n))) =
      .ok (n, [hndl L m]) := by
  unfold joinRowLinks
  rw [this_key_multiSpec, link_keys_multiSpec]
  simp only [alGet_rowToRec, alGet_mkRow_fst hks, alGet_mkRow_snd hks, Option.map_some',
    exceptOkBind, List.foldlM, pyInt]
  rfl

theorem find?_map_if (n0 n : Int) (d : Dict) (lm : List (Int × List Dict)) :
    (lm.map fun q => if q.1 = n0 then (q.1, q.2 ++ [d]) else q).find?
        (fun q => q.1 = n) =
      (lm.find? (fun q => q.1 = n)).map
        (fun q => if q.1 = n0 then (q.1, q.2 ++ [d]) else q) := by
  have hfst : ∀ q : Int × List Dict,
      (if q.1 = n0 then (q.1, q.2 ++ [d]) else q).1 = q.1 := by
    intro q
    by_cases h : q.1 = n0 <;> simp [h]
  induction lm with
  | nil => rfl
  | cons hd tl ih =>
      simp only [List.map_cons, List.find?_cons, hfst]
      by_cases h : hd.1 = n
      · simp [h]
      · simp [h, ih]

theorem lmAdd_char (n0 : Int) (d : Dict) {lm : List (Int × List Dict)}
    (hnd : (lm.map Prod.fst).Nodup) (hne : ∀ q ∈ lm, q.2 ≠ []) :
    ((lmAdd n0 lm d).map Prod.fst).Nodup ∧
    (∀ q ∈ lmAdd n0 lm d, q.2 ≠ []) ∧
    ∀ n, lmGet (lmAdd n0 lm d) n =
      if n = n0 then lmGet lm n ++ [d] else lmGet lm n := by
  unfold lmAdd
  cases hfind : lm.find? (fun q => q.1 = n0) with
  | none =>
      have hnotin : (n0 : Int) ∉ lm.map Prod.fst := by
        intro hmem
        rcases List.mem_map.mp hmem with ⟨q, hq, hq1⟩
        have := List.find?_eq_none.mp hfind q hq
        simp [hq1] at this
      refine ⟨?_, ?_, ?_⟩
      · rw [List.map_append]
        simp only [List.map_cons, List.map_nil]
        exact List.Nodup.append hnd (by simp) (by
          intro a ha hb
          simp only [List.mem_singleton] at hb
          exact hnotin (hb ▸ ha))
      · intro q hq
        rcases List.mem_append.mp hq with hq2 | hq2
        · exact hne q hq2
        · simp only [List.mem_singleton] at hq2
          rw [hq2]
          simp
      · intro n
        by_cases hn : n = n0
        · subst hn
          have hgl : lmGet lm n = [] := by
            simp [lmGet, hfind]
          simp only [lmGet, hgl, List.nil_append, if_pos rfl]
          rw [List.find?_append, hfind]
          simp
        · simp only [lmGet, if_neg hn]
          rw [List.find?_append]
          cases hfind2 : lm.find? (fun q => q.1 = n) with
          | none =>
              simp only [Option.none_orElse]
              have : ¬ ((n0, [d]).1 = n) := fun hh => hn (by simpa using hh.symm)
              simp [List.find?_cons, this]
          | some q => simp
  | some q0 =>
      refine ⟨?_, ?_, ?_⟩
      · have : ((lm.map fun q => if q.1 = n0 then (q.1, q.2 ++ [d]) else q).map Prod.fst) =
            lm.map Prod.fst := by
          rw [List.map_map]
          congr 1
          funext q
          by_cases h : q.1 = n0 <;> simp [h]
        rw [this]
        exact hnd
      · intro q hq
        rcases List.mem_map.mp hq with ⟨q2, hq2, hq3⟩
        by_cases h : q2.1 = n0
        · rw [← hq3]
          simp [h]
        · rw [← hq3]
          simp only [h, if_false]
          exact hne q2 hq2
      · intro n
        simp only [lmGet, find?_map_if]
        cases hfind2 : lm.find? (fun q => q.1 = n) with
        | none =>
            simp only [Option.map_none']
            by_cases hn : n = n0
            · subst hn
              rw [hfind2] at hfind
              cases hfind
            · simp [hn]
        | some q =>
            have hq1 : q.1 = n := by
              have := List.find?_some hfind2
              simpa using this
            simp only [Option.map_some']
            by_cases hn : n = n0
            · subst hn
              simp [hq1]
            · have hq0 : ¬ q.1 = n0 := fun hh => hn (hq1.symm.trans hh)
              simp [hq0, hn]

theorem joinLinksMapLoop_char (T fld L rf t : String)
    (hks : (L ++ "." ++ rf) ≠ (T ++ "." ++ fld)) (ps : List (Int × Int)) :
    ∀ (i : Nat) (lm : List (Int × List Dict)),
    (lm.map Prod.fst).Nodup → (∀ q ∈ lm, q.2 ≠ []) →
    ∃ lm2, joinLinksMapLoop (multiSpec T fld L rf t) lm
        (rowsToTableAux i (ps.map fun p =>
          mkRow (L ++ "." ++ rf) (.pint p.1) (T ++ "." ++ fld) (.pint p.2))) = .ok lm2 ∧
      (lm2.map Prod.fst).Nodup ∧ (∀ q ∈ lm2, q.2 ≠ []) ∧
      ∀ n, lmGet lm2 n =
        lmGet lm n ++ (ps.filter (fun p => p.2 = n)).map (fun p => hndl L p.1) := by
  induction ps with
  | nil =>
      intro i lm hnd hne
      exact ⟨lm, rfl, hnd, hne, by simp⟩
  | cons p0 rest ih =>
      intro i lm hnd hne
      obtain ⟨hnd2, hne2, hget2⟩ := lmAdd_char p0.2 (hndl L p0.1) hnd hne
      obtain ⟨lm2, heq, hnd3, hne3, hget3⟩ := ih (i + 1) (lmAdd p0.2 lm (hndl L p0.1)) hnd2 hne2
      refine ⟨lm2, ?_, hnd3, hne3, ?_⟩
      · simp only [List.map_cons, rowsToTableAux, joinLinksMapLoop,
          joinRowLinks_multiSpec T fld L rf t hks p0.1 p0.2, exceptOkBind, List.foldl]
        exact heq
      · intro n
        rw [hget3 n, hget2 n]
        by_cases hn : n = p0.2
        · subst hn
          rw [if_pos rfl, List.filter_cons, if_pos (by simp)]
          simp
        · rw [if_neg hn, List.filter_cons,
            if_neg (by simpa using fun hh : p0.2 = n => hn hh.symm)]

theorem joinSetRec_char (T fld L rf t : String) {lm : List (Int × List Dict)}
    (hne : ∀ q ∈ lm, q.2 ≠ []) {k : String} {nk : Int} (hk : pyStrToInt k = some nk) (e : Rec) :
    joinSetRec (multiSpec T fld L rf t) lm k e = .ok (joinedRec lm fld (k, e)) := by
  simp only [joinSetRec, hk, exceptOkBind, joinedRec]
  cases hfind : lm.find? (fun q => q.1 = nk) with
  | none =>
      have hgl : lmGet lm nk = [] := by simp [lmGet, hfind]
      simp [hgl]
  | some q =>
      have hgl : lmGet lm nk = q.2 := by simp [lmGet, hfind]
      have hq2 : q.2 ≠ [] := hne q (List.mem_of_find?_eq_some hfind)
      rw [hgl]
      simp only [is_entity_multiSpec, Bool.false_eq_true, if_false,
        is_multi_entity_multiSpec, if_true, multiSpec_name, hq2]

theorem joinTableLoop_char (T fld L rf t : String) {lm : List (Int × List Dict)}
    (hne : ∀ q ∈ lm, q.2 ≠ []) {tbl : Table}
    (hparse : ∀ p ∈ tbl, ∃ n : Int, pyStrToInt p.1 = some n) (acc : Table) :
    joinTableLoop (multiSpec T fld L rf t) lm acc tbl =
      .ok (acc ++ tbl.map fun ke => (ke.1, joinedRec lm fld ke)) := by
  induction tbl generalizing acc with
  | nil => simp [joinTableLoop]
  | cons ke rest ih =>
      obtain ⟨nk, hk⟩ := hparse ke (List.mem_cons_self _ _)
      have hrest : ∀ p ∈ rest, ∃ n : Int, pyStrToInt p.1 = some n :=
        fun p hp => hparse p (List.mem_cons_of_mem _ hp)
      have := joinSetRec_char T fld L rf t hne hk ke.2
      simp only [joinTableLoop, show ((ke.1, ke.2) : String × Rec) = ke from rfl] at *
      rw [this, exceptOkBind, ih hrest]
      simp

theorem joinField_char (T fld L rf t : String)
    (hks : (L ++ "." ++ rf) ≠ (T ++ "." ++ fld)) {data : Data} (ps : List (Int × Int))
    (hlink : (alGet t data).getD [] = rowsToTable (ps.map fun p =>
      mkRow (L ++ "." ++ rf) (.pint p.1) (T ++ "." ++ fld) (.pint p.2)))
    (hparse : ∀ p ∈ (alGet T data).getD [], ∃ n : Int, pyStrToInt p.1 = some n) :
    ∃ lm, joinField data T (multiSpec T fld L rf t) =
        .ok (if alHasKey T data then
          alSet T (((alGet T data).getD []).map fun ke => (ke.1, joinedRec lm fld ke)) data
          else data) ∧
      (∀ q ∈ lm, q.2 ≠ []) ∧
      ∀ n, lmGet lm n = (ps.filter (fun p => p.2 = n)).map (fun p => hndl L p.1) := by
  obtain ⟨lm, heq, hnd, hne, hget⟩ :=
    joinLinksMapLoop_char T fld L rf t hks ps 1 [] (by simp) (by simp)
  refine ⟨lm, ?_, hne, fun n => by simpa using hget n⟩
  simp only [joinField, multiSpec_table, exceptOkBind, joinLinksMap, hlink,
    rowsToTable] at *
  rw [heq]
  simp only [exceptOkBind]
  rw [joinTableLoop_char T fld L rf t hne hparse []]
  simp only [List.nil_append, exceptOkBind]
  by_cases hT : alHasKey T data = true
  · simp [hT]
  · simp only [Bool.not_eq_true] at hT
    simp [hT]

theorem injectIdsLoop_char (T : String) (retired : Table) {tbl : Table}
    (hparse : ∀ p ∈ tbl, ∃ n : Int, pyStrToInt p.1 = some n) (acc : Table) :
    injectIdsLoop T retired acc tbl =
      .ok (acc ++ tbl.map fun ke => (ke.1, injectedRec T retired ke)) := by
  induction tbl generalizing acc with
  | nil => simp [injectIdsLoop]
  | cons ke rest ih =>
      obtain ⟨nk, hk⟩ := hparse ke (List.mem_cons_self _ _)
      have hrest : ∀ p ∈ rest, ∃ n : Int, pyStrToInt p.1 = some n :=
        fun p hp => hparse p (List.mem_cons_of_mem _ hp)
      by_cases hr : alHasKey ke.1 retired = true
      · simp only [injectIdsLoop, hr, if_true, ih hrest]
        have : injectedRec T retired ke = ke.2 := by simp [injectedRec, hr]
        simp [this]
      · simp only [injectIdsLoop, hr, Bool.false_eq_true, if_false, hk, exceptOkBind,
          ih hrest]
        have : injectedRec T retired ke =
            alSet "type" (Value.str T) (alSet "id" (Value.int nk) ke.2) := by
          simp [injectedRec, hr, hk]
        simp [this]

theorem injectIds_char (T : String) {data : Data}
    (hparse : ∀ p ∈ (alGet T data).getD [], ∃ n : Int, pyStrToInt p.1 = some n) :
    injectIds T data = .ok (if alHasKey T data then
      alSet T (((alGet T data).getD []).map fun ke =>
        (ke.1, injectedRec T ((alGet ("Retired:" ++ T) data).getD []) ke)) data
      else data) := by
  simp only [injectIds, injectIdsLoop_char T _ hparse [], exceptOkBind, List.nil_append]
  by_cases hT : alHasKey T data = true
  · simp [hT]
  · simp only [Bool.not_eq_true] at hT
    simp [hT]

theorem alGet_map_keyed (F : String × Rec → Rec) (k : String) (tbl : Table) :
    alGet k (tbl.map fun ke => (ke.1, F ke)) = (alGet k tbl).map fun e => F (k, e) := by
  induction tbl with
  | nil => rfl
  | cons ke rest ih =>
      rw [List.map_cons, alGet_cons, alGet_cons]
      by_cases h : ke.1 = k
      · subst h
        simp
      · simp [h, ih]

theorem mem_of_alGet {k : String} {v : α} {l : List (String × α)}
    (h : alGet k l = some v) : (k, v) ∈ l := by
  induction l with
  | nil => cases h
  | cons hd tl ih =>
      rw [alGet_cons] at h
      by_cases hk : hd.1 = k
      · rw [if_pos hk] at h
        have hv : v = hd.2 := (Option.some.inj h).symm
        have : (k, v) = hd := by
          rw [hv, ← hk]
        rw [this]
        exact List.mem_cons_self _ _
      · rw [if_neg hk] at h
        exact List.mem_cons_of_mem _ (ih h)

theorem alGet_injectedRec_ne {k : String} (hid : k ≠ "id") (hty : k ≠ "type")
    (T : String) (ret : Table) (ke : String × Rec) :
    alGet k (injectedRec T ret ke) = alGet k ke.2 := by
  unfold injectedRec
  by_cases hr : alHasKey ke.1 ret = true
  · rw [if_pos hr]
  · rw [if_neg hr]
    cases hk : pyStrToInt ke.1 with
    | none => rfl
    | some n =>
        rw [alGet_alSet_ne (Ne.symm hty), alGet_alSet_ne (Ne.symm hid)]

theorem family_decomp {k1 k2 : String} (h12 : k1 ≠ k2) :
    ∀ R : List Row,
    (∀ r ∈ R, ∃ a b : Int, r = mkRow k1 (.pint a) k2 (.pint b)) →
    ∃ ps : List (Int × Int),
      R = ps.map (fun p => mkRow k1 (.pint p.1) k2 (.pint p.2)) ∧
      ∀ a b : Int, ((a, b) ∈ ps ↔ mkRow k1 (.pint a) k2 (.pint b) ∈ R)
  | [], _ => ⟨[], rfl, by simp⟩
  | r :: rest, h => by
      obtain ⟨a0, b0, hr⟩ := h r (List.mem_cons_self _ _)
      obtain ⟨ps, hps, hmem⟩ :=
        family_decomp h12 rest (fun r hr => h r (List.mem_cons_of_mem _ hr))
      refine ⟨(a0, b0) :: ps, ?_, ?_⟩
      · rw [hr, hps]
        simp
      · intro a b
        simp only [List.mem_cons, hmem]
        constructor
        · rintro (h1 | h1)
          · left
            rw [hr, Prod.mk.injEq] at *
            rw [h1.1, h1.2]
          · right
            exact h1
        · rintro (h1 | h1)
          · left
            rw [hr] at h1
            obtain ⟨hv1, hv2⟩ := mkRow_inj h12 h1
            simp only [Prim.pint.injEq] at hv1 hv2
            rw [hv1, hv2]
          · right
            exact h1

theorem mem_swap_map (ps : List (Int × Int)) (a b : Int) :
    (a, b) ∈ ps.map (fun p => (p.2, p.1)) ↔ (b, a) ∈ ps := by
  rw [List.mem_map]
  constructor
  · rintro ⟨p, hp, heq⟩
    rw [Prod.mk.injEq] at heq
    have hpe : p = (b, a) := Prod.ext heq.2 heq.1
    rwa [hpe] at hp
  · intro h
    exact ⟨(b, a), h, rfl⟩

theorem fieldsOf_pair_left (A B fn gn t : String) (hAB : A ≠ B) :
    fieldsOf [multiSpec A fn B gn t, multiSpec B gn A fn t] A = [multiSpec A fn B gn t] := by
  simp [fieldsOf, multiSpec, Ne.symm hAB]

theorem fieldsOf_pair_right (A B fn gn t : String) (hAB : A ≠ B) :
    fieldsOf [multiSpec A fn B gn t, multiSpec B gn A fn t] B = [multiSpec B gn A fn t] := by
  simp [fieldsOf, multiSpec, hAB]

theorem injectIds_getD (t : String) {data : Data}
    (hparse : ∀ p ∈ (alGet t data).getD [], ∃ n : Int, pyStrToInt p.1 = some n) :
    ∃ d2, injectIds t data = .ok d2 ∧
      (alGet t d2).getD [] = ((alGet t data).getD []).map
        (fun ke => (ke.1, injectedRec t ((alGet ("Retired:" ++ t) data).getD []) ke)) ∧
      ∀ s, s ≠ t → alGet s d2 = alGet s data := by
  refine ⟨_, injectIds_char t hparse, ?_, ?_⟩
  · by_cases h : alHasKey t data = true
    · rw [if_pos h, alGet_alSet_self]
      rfl
    · rw [if_neg h]
      have hnone : alGet t data = none := by
        rcases hopt : alGet t data with _ | v
        · rfl
        · exact absurd (by simp [alHasKey, hopt]) h
      simp [hnone]
  · intro s hs
    by_cases h : alHasKey t data = true
    · rw [if_pos h]
      exact alGet_alSet_ne (Ne.symm hs) _ _
    · rw [if_neg h]

theorem joinField_getD (T fld L rf t : String)
    (hks : (L ++ "." ++ rf) ≠ (T ++ "." ++ fld)) {data : Data} (ps : List (Int × Int))
    (hlink : (alGet t data).getD [] = rowsToTable (ps.map fun p =>
      mkRow (L ++ "." ++ rf) (.pint p.1) (T ++ "." ++ fld) (.pint p.2)))
    (hparse : ∀ p ∈ (alGet T data).getD [], ∃ n : Int, pyStrToInt p.1 = some n) :
    ∃ lm d2, joinField data T (multiSpec T fld L rf t) = .ok d2 ∧
      (alGet T d2).getD [] = ((alGet T data).getD []).map
        (fun ke => (ke.1, joinedRec lm fld ke)) ∧
      (∀ s, s ≠ T → alGet s d2 = alGet s data) ∧
      ∀ n, lmGet lm n = (ps.filter (fun p => p.2 = n)).map (fun p => hndl L p.1) := by
  obtain ⟨lm, heq, hne, hget⟩ := joinField_char T fld L rf t hks ps hlink hparse
  refine ⟨lm, _, heq, ?_, ?_, hget⟩
  · by_cases h : alHasKey T data = true
    · rw [if_pos h, alGet_alSet_self]
      rfl
    · rw [if_neg h]
      have hnone : alGet T data = none := by
        rcases hopt : alGet T data with _ | v
        · rfl
        · exact absurd (by simp [alHasKey, hopt]) h
      simp [hnone]
  · intro s hs
    by_cases h : alHasKey T data = true
    · rw [if_pos h]
      exact alGet_alSet_ne (Ne.symm hs) _ _
    · rw [if_neg h]

theorem linkField_joined_iff {kx : String} {nx : Int} (hk : pyStrToInt kx = some nx)
    {e : Rec} {fld L : String} (hnone : alGet fld e = none)
    {lm : List (Int × List Dict)} {ps : List (Int × Int)}
    (hlm : lmGet lm nx = (ps.filter (fun p => p.2 = nx)).map (fun p => hndl L p.1))
    (m : Int) :
    linkFieldContainsB (joinedRec lm fld (kx, e)) fld L m = true ↔ (m, nx) ∈ ps := by
  unfold joinedRec
  simp only [hk]
  by_cases hemp : lmGet lm nx = []
  · rw [if_pos hemp]
    unfold linkFieldContainsB
    rw [hnone]
    constructor
    · intro h
      cases h
    · intro h
      exfalso
      have hmem : hndl L m ∈ lmGet lm nx := by
        rw [hlm]
        exact List.mem_map.mpr ⟨(m, nx), List.mem_filter.mpr ⟨h, by simp⟩, rfl⟩
      rw [hemp] at hmem
      cases hmem
  · rw [if_neg hemp]
    have hget : alGet fld (alSet fld
        (Value.vlist ((sortById (lmGet lm nx)).map Item.idict)) e) =
        some (Value.vlist ((sortById (lmGet lm nx)).map Item.idict)) :=
      alGet_alSet_self _ _ _
    simp only [linkFieldContainsB, hget]
    rw [List.any_eq_true]
    constructor
    · rintro ⟨x, hx, hpx⟩
      rcases List.mem_map.mp hx with ⟨d, hd, rfl⟩
      have hpx2 : dictEq d (hndl L m) = true := hpx
      have hd2 := (mem_sortById d _).mp hd
      rw [hlm] at hd2
      rcases List.mem_map.mp hd2 with ⟨p, hp, rfl⟩
      obtain ⟨-, h2⟩ := (dictEq_hndl L L p.1 m).mp hpx2
      have hp2 := List.mem_filter.mp hp
      have hpe : p = (m, nx) := Prod.ext h2 (by simpa using hp2.2)
      rw [← hpe]
      exact hp2.1
    · intro h
      refine ⟨Item.idict (hndl L m), ?_, ?_⟩
      · refine List.mem_map.mpr ⟨hndl L m, (mem_sortById _ _).mpr ?_, rfl⟩
        rw [hlm]
        exact List.mem_map.mpr ⟨(m, nx), List.mem_filter.mpr ⟨h, by simp⟩, rfl⟩
      · exact (dictEq_hndl L L m m).mpr ⟨rfl, rfl⟩

theorem readAB_char (A B fn gn t : String)
    (hAB : A ≠ B) (htA : t ≠ A) (htB : t ≠ B)
    (hks : (B ++ "." ++ gn) ≠ (A ++ "." ++ fn))
    (hfid : fn ≠ "id") (hfty : fn ≠ "type") (hgid : gn ≠ "id") (hgty : gn ≠ "type")
    {dw : Data} (ps : List (Int × Int))
    (hlink : (alGet t dw).getD [] = rowsToTable (ps.map fun p =>
      mkRow (B ++ "." ++ gn) (.pint p.1) (A ++ "." ++ fn) (.pint p.2)))
    (hpA : ∀ p ∈ (alGet A dw).getD [], ∃ n : Int, pyStrToInt p.1 = some n)
    (hpB : ∀ p ∈ (alGet B dw).getD [], ∃ n : Int, pyStrToInt p.1 = some n)
    (hfnA : ∀ p ∈ (alGet A dw).getD [], alGet fn p.2 = none)
    (hgnB : ∀ p ∈ (alGet B dw).getD [], alGet gn p.2 = none) :
    ∃ df, read [A, B] [multiSpec A fn B gn t, multiSpec B gn A fn t] dw = .ok df ∧
      (∀ kx (nx : Int) eA, pyStrToInt kx = some nx →
        alGet kx ((alGet A dw).getD []) = some eA →
        ∀ ny : Int, (linkFieldContainsB (recAt df A kx) fn B ny = true ↔ (ny, nx) ∈ ps)) ∧
      (∀ ky (ny : Int) eB, pyStrToInt ky = some ny →
        alGet ky ((alGet B dw).getD []) = some eB →
        ∀ nx : Int, (linkFieldContainsB (recAt df B ky) gn A nx = true ↔ (ny, nx) ∈ ps)) := by
  obtain ⟨dA, hinjA, hgetA1, hothA1⟩ := injectIds_getD A hpA
  have hlinkA : (alGet t dA).getD [] = rowsToTable (ps.map fun p =>
      mkRow (B ++ "." ++ gn) (.pint p.1) (A ++ "." ++ fn) (.pint p.2)) := by
    rw [hothA1 t htA, hlink]
  have hparseA1 : ∀ p ∈ (alGet A dA).getD [], ∃ n : Int, pyStrToInt p.1 = some n := by
    rw [hgetA1]
    intro p hp
    rcases List.mem_map.mp hp with ⟨ke, hke, rfl⟩
    exact hpA ke hke
  obtain ⟨lmA, dA2, hjoinA, hgetA2, hothA2, hlmA⟩ :=
    joinField_getD A fn B gn t hks ps hlinkA hparseA1
  have hBe : alGet B dA2 = alGet B dw := by
    rw [hothA2 B (Ne.symm hAB), hothA1 B (Ne.symm hAB)]
  have hpB2 : ∀ p ∈ (alGet B dA2).getD [], ∃ n : Int, pyStrToInt p.1 = some n := by
    rw [hBe]
    exact hpB
  obtain ⟨dB, hinjB, hgetB1, hothB1⟩ := injectIds_getD B hpB2
  have hlinkB : (alGet t dB).getD [] =
      rowsToTable ((ps.map fun p => (p.2, p.1)).map fun p =>
        mkRow (A ++ "." ++ fn) (.pint p.1) (B ++ "." ++ gn) (.pint p.2)) := by
    rw [hothB1 t htB, hothA2 t htA, hothA1 t htA, hlink]
    congr 1
    rw [List.map_map]
    apply List.map_congr_left
    intro p hp
    exact (mkRow_swap hks (Prim.pint p.1) (Prim.pint p.2)).symm
  have hparseB1 : ∀ p ∈ (alGet B dB).getD [], ∃ n : Int, pyStrToInt p.1 = some n := by
    rw [hgetB1]
    intro p hp
    rcases List.mem_map.mp hp with ⟨ke, hke, rfl⟩
    exact hpB2 ke hke
  obtain ⟨lmB, dB2, hjoinB, hgetB2, hothB2, hlmB⟩ :=
    joinField_getD B gn A fn t (Ne.symm hks) (ps.map fun p => (p.2, p.1)) hlinkB hparseB1
  have hstepA : readStep [multiSpec A fn B gn t, multiSpec B gn A fn t]
      (dw, ([] : List String)) A = .ok (dA2, [t]) := by
    simp only [readStep, hinjA, exceptOkBind]
    rw [fieldsOf_pair_left A B fn gn t hAB]
    simp only [List.foldlM, readFieldStep]
    rw [if_pos (is_link_multiSpec A fn B gn t)]
    simp only [hjoinA, exceptOkBind, multiSpec_table]
    rfl
  have hcont : ([t] : List String).contains t = true := by simp
  have hstepB : readStep [multiSpec A fn B gn t, multiSpec B gn A fn t]
      (dA2, [t]) B = .ok (dB2, [t]) := by
    simp only [readStep, hinjB, exceptOkBind]
    rw [fieldsOf_pair_right A B fn gn t hAB]
    simp only [List.foldlM, readFieldStep]
    rw [if_pos (is_link_multiSpec B gn A fn t)]
    simp only [hjoinB, exceptOkBind, multiSpec_table]
    rw [if_pos hcont]
    rfl
  refine ⟨alPop t dB2, ?_, ?_, ?_⟩
  · simp only [read, List.foldlM, hstepA, exceptOkBind, hstepB]
    rfl
  · intro kx nx eA hk hx ny
    have hAdf : alGet A (alPop t dB2) = alGet A dA2 := by
      rw [alGet_alPop_ne htA, hothB2 A hAB, hothB1 A hAB]
    have h1 : alGet kx ((alGet A dA2).getD []) =
        some (joinedRec lmA fn (kx,
          injectedRec A ((alGet ("Retired:" ++ A) dw).getD []) (kx, eA))) := by
      rw [hgetA2, alGet_map_keyed, hgetA1, alGet_map_keyed, hx]
      rfl
    have hrec : recAt (alPop t dB2) A kx =
        joinedRec lmA fn (kx,
          injectedRec A ((alGet ("Retired:" ++ A) dw).getD []) (kx, eA)) := by
      unfold recAt
      rw [hAdf, h1]
      rfl
    have hnoneA : alGet fn
        (injectedRec A ((alGet ("Retired:" ++ A) dw).getD []) (kx, eA)) = none := by
      rw [alGet_injectedRec_ne hfid hfty]
      exact hfnA (kx, eA) (mem_of_alGet hx)
    rw [hrec]
    exact linkField_joined_iff hk hnoneA (hlmA nx) ny
  · intro ky ny eB hk hy nx
    have hBdf : alGet B (alPop t dB2) = alGet B dB2 :=
      alGet_alPop_ne htB _
    have hy2 : alGet ky ((alGet B dA2).getD []) = some eB := by
      rw [hBe]
      exact hy
    have h1 : alGet ky ((alGet B dB2).getD []) =
        some (joinedRec lmB gn (ky,
          injectedRec B ((alGet ("Retired:" ++ B) dA2).getD []) (ky, eB))) := by
      rw [hgetB2, alGet_map_keyed, hgetB1, alGet_map_keyed, hy2]
      rfl
    have hrec : recAt (alPop t dB2) B ky =
        joinedRec lmB gn (ky,
          injectedRec B ((alGet ("Retired:" ++ B) dA2).getD []) (ky, eB)) := by
      unfold recAt
      rw [hBdf, h1]
      rfl
    have hnoneB : alGet gn
        (injectedRec B ((alGet ("Retired:" ++ B) dA2).getD []) (ky, eB)) = none := by
      rw [alGet_injectedRec_ne hgid hgty]
      exact hgnB (ky, eB) (mem_of_alGet hy)
    rw [hrec]
    exact (linkField_joined_iff hk hnoneB (hlmB ny) nx).trans (mem_swap_map ps nx ny)

theorem alGet_stripTable (names : List String) (k : String) (tbl : Table) :
    alGet k (stripTable names tbl) =
      (alGet k tbl).map fun e => if e.isEmpty then e else stripRec names e :=
  alGet_map_keyed (fun ke => if ke.2.isEmpty then ke.2 else stripRec names ke.2) k tbl

/-! ## The claims -/

/-- C1 (amended): the claimed link symmetry invariant holds for a
reverse pair of *multi-entity* fields. For entity types `A` and `B`, a
multi-entity field `fn` on `A` and its declared reverse multi-entity
field `gn` on `B` sharing relation table `t`, over well-formed active
tables and with no pre-existing pivot table: after a durability cycle
(pivot-normalizing write then denormalizing read), the rebuilt field
`fn` of an active `A`-record `x` contains the handle of an active
`B`-record `y` if and only if the rebuilt field `gn` of `y` contains
the handle of `x`. (The claim's unrestricted form, covering
single-entity link fields as well, is false: a single-entity field
keeps only the first of its sorted joined handles, see the
counterexample.) -/
theorem C1_amended (A B fn gn t : String)
    (hAB : A ≠ B) (htA : t ≠ A) (htB : t ≠ B)
    (hks : (B ++ "." ++ gn) ≠ (A ++ "." ++ fn))
    (hfid : fn ≠ "id") (hfty : fn ≠ "type") (hgid : gn ≠ "id") (hgty : gn ≠ "type")
    {data : Data}
    (hWA : tableWF fn B ((alGet A data).getD []))
    (hWB : tableWF gn A ((alGet B data).getD []))
    (htN : alGet t data = none) :
    ∃ df, flushData [A, B] [multiSpec A fn B gn t, multiSpec B gn A fn t] data = .ok df ∧
      ∀ kx (nx : Int) eA ky (ny : Int) eB,
        pyStrToInt kx = some nx → alGet kx ((alGet A data).getD []) = some eA →
        pyStrToInt ky = some ny → alGet ky ((alGet B data).getD []) = some eB →
        (linkFieldContainsB (recAt df A kx) fn B ny = true ↔
          linkFieldContainsB (recAt df B ky) gn A nx = true) := by
  obtain ⟨dw, R, hw, hfam, hmemR, hpiv, hAdw, hBdw, hoth⟩ :=
    writeAB_char A B fn gn t hAB htA htB hks hWA hWB htN
  have hfam2 : ∀ r ∈ R, ∃ a b : Int,
      r = mkRow (B ++ "." ++ gn) (.pint a) (A ++ "." ++ fn) (.pint b) := by
    intro r hr
    obtain ⟨a, b, h⟩ := hfam r hr
    exact ⟨a, b, h⟩
  obtain ⟨ps, hRps, hpsmem⟩ := family_decomp hks R hfam2
  have hA_dw : (alGet A dw).getD [] =
      stripTable ["id", "type", fn] ((alGet A data).getD []) := by
    rw [hAdw]
    cases alGet A data
    · rfl
    · rfl
  have hB_dw : (alGet B dw).getD [] =
      stripTable ["id", "type", gn] ((alGet B data).getD []) := by
    rw [hBdw]
    cases alGet B data
    · rfl
    · rfl
  have hlink : (alGet t dw).getD [] = rowsToTable (ps.map fun p =>
      mkRow (B ++ "." ++ gn) (.pint p.1) (A ++ "." ++ fn) (.pint p.2)) := by
    rcases hpiv with ⟨hR0, hnone⟩ | hsome
    · have hps0 : ps = [] := List.map_eq_nil_iff.mp (hR0 ▸ hRps).symm
      rw [hnone, hps0]
      rfl
    · rw [hsome, ← hRps]
      rfl
  have hpA : ∀ p ∈ (alGet A dw).getD [], ∃ n : Int, pyStrToInt p.1 = some n := by
    rw [hA_dw]
    intro p hp
    simp only [stripTable] at hp
    rcases List.mem_map.mp hp with ⟨ke, hke, rfl⟩
    obtain ⟨⟨n, hn, -⟩, -⟩ := hWA ke hke
    exact ⟨n, hn⟩
  have hpB : ∀ p ∈ (alGet B dw).getD [], ∃ n : Int, pyStrToInt p.1 = some n := by
    rw [hB_dw]
    intro p hp
    simp only [stripTable] at hp
    rcases List.mem_map.mp hp with ⟨ke, hke, rfl⟩
    obtain ⟨⟨n, hn, -⟩, -⟩ := hWB ke hke
    exact ⟨n, hn⟩
  have hfnA : ∀ p ∈ (alGet A dw).getD [], alGet fn p.2 = none := by
    rw [hA_dw]
    intro p hp
    simp only [stripTable] at hp
    rcases List.mem_map.mp hp with ⟨ke, hke, rfl⟩
    show alGet fn (if ke.2.isEmpty = true then ke.2 else
      stripRec ["id", "type", fn] ke.2) = none
    by_cases hemp : ke.2.isEmpty = true
    · have hnil : ke.2 = [] := by
        cases hk2 : ke.2
        · rfl
        · rw [hk2] at hemp
          cases hemp
      rw [if_pos hemp, hnil]
      rfl
    · have hne : ke.2 ≠ [] := by
        intro h
        rw [h] at hemp
        exact hemp rfl
      obtain ⟨-, hrest⟩ := hWA ke hke
      obtain ⟨hnd, -⟩ := hrest hne
      rw [if_neg hemp]
      exact alGet_stripRec_of_mem (by simp) hnd
  have hgnB : ∀ p ∈ (alGet B dw).getD [], alGet gn p.2 = none := by
    rw [hB_dw]
    intro p hp
    simp only [stripTable] at hp
    rcases List.mem_map.mp hp with ⟨ke, hke, rfl⟩
    show alGet gn (if ke.2.isEmpty = true then ke.2 else
      stripRec ["id", "type", gn] ke.2) = none
    by_cases hemp : ke.2.isEmpty = true
    · have hnil : ke.2 = [] := by
        cases hk2 : ke.2
        · rfl
        · rw [hk2] at hemp
          cases hemp
      rw [if_pos hemp, hnil]
      rfl
    · have hne : ke.2 ≠ [] := by
        intro h
        rw [h] at hemp
        exact hemp rfl
      obtain ⟨-, hrest⟩ := hWB ke hke
      obtain ⟨hnd, -⟩ := hrest hne
      rw [if_neg hemp]
      exact alGet_stripRec_of_mem (by simp) hnd
  obtain ⟨df, hread, hiffA, hiffB⟩ :=
    readAB_char A B fn gn t hAB htA htB hks hfid hfty hgid hgty ps hlink hpA hpB hfnA hgnB
  refine ⟨df, ?_, ?_⟩
  · simp only [flushData, hw, exceptOkBind]
    exact hread
  · intro kx nx eA ky ny eB hkx hxA hky hyB
    have hxA2 : alGet kx ((alGet A dw).getD []) =
        some (if eA.isEmpty then eA else stripRec ["id", "type", fn] eA) := by
      rw [hA_dw, alGet_stripTable, hxA]
      rfl
    have hyB2 : alGet ky ((alGet B dw).getD []) =
        some (if eB.isEmpty then eB else stripRec ["id", "type", gn] eB) := by
      rw [hB_dw, alGet_stripTable, hyB]
      rfl
    exact (hiffA kx nx _ hkx hxA2 ny).trans (hiffB ky ny _ hky hyB2 nx).symm

/-- On the concrete store where `B`-records 1 and 2 both list `A`-record
1 in their multi-entity field `g` whose declared reverse field `f` on
`A` is *single-entity*, one durability cycle leaves `g` of `B`-record 2
containing the handle of `A`-record 1 while `f` of `A`-record 1 does
not contain the handle of `B`-record 2 — the claimed two-sided
containment equivalence fails for a single-entity link field and its
multi-entity reverse. -/
theorem C1_counterexample :
    (flushData ["A", "B"]
        [entitySpec "A" "f" "B" "g" "rel", multiSpec "B" "g" "A" "f" "rel"]
        [("A", [("1", [("id", Value.int 1), ("type", Value.str "A")])]),
         ("B", [("1", [("id", Value.int 1), ("type", Value.str "B"),
                        ("g", linksVal "A" [1])]),
                ("2", [("id", Value.int 2), ("type", Value.str "B"),
                        ("g", linksVal "A" [1])])])]).map (fun df =>
      (linkFieldContainsB (recAt df "A" "1") "f" "B" 2,
       linkFieldContainsB (recAt df "B" "2") "g" "A" 1)) = .ok (false, true) := by
  rfl

/-- The amended symmetry theorem applied to a concrete two-record
store: after the durability cycle, `x.f` contains `y` iff `y.g`
contains `x`. -/
theorem C1_amended_witness :
    ∃ df, flushData ["A", "B"]
        [multiSpec "A" "f" "B" "g" "rel", multiSpec "B" "g" "A" "f" "rel"]
        [("A", [("1", [("id", Value.int 1), ("type", Value.str "A"),
                        ("f", linksVal "B" [1])])]),
         ("B", [("1", [("id", Value.int 1), ("type", Value.str "B")])])] = .ok df ∧
      (linkFieldContainsB (recAt df "A" "1") "f" "B" 1 = true ↔
        linkFieldContainsB (recAt df "B" "1") "g" "A" 1 = true) := by
  obtain ⟨df, h1, h2⟩ :=
    @C1_amended "A" "B" "f" "g" "rel" (by decide) (by decide) (by decide) (by decide)
      (by decide) (by decide) (by decide) (by decide)
      [("A", [("1", [("id", Value.int 1), ("type", Value.str "A"),
                      ("f", linksVal "B" [1])])]),
       ("B", [("1", [("id", Value.int 1), ("type", Value.str "B")])])]
      (by
        intro p hp
        have hp2 : p ∈ [(("1" : String),
            [("id", Value.int 1), ("type", Value.str "A"), ("f", linksVal "B" [1])])] := hp
        rw [List.mem_singleton] at hp2
        subst hp2
        exact ⟨⟨1, rfl, fun _ => rfl⟩, fun _ => ⟨by decide, Or.inr ⟨[1], rfl⟩⟩⟩)
      (by
        intro p hp
        have hp2 : p ∈ [(("1" : String),
            [("id", Value.int 1), ("type", Value.str "B")])] := hp
        rw [List.mem_singleton] at hp2
        subst hp2
        exact ⟨⟨1, rfl, fun _ => rfl⟩, fun _ => ⟨by decide, Or.inl rfl⟩⟩)
      rfl
  exact ⟨df, h1, h2 "1" 1 _ "1" 1 _ rfl rfl rfl rfl⟩

/-- C4 (amended): the pivot-normalization persist step derives its
relation rows from the *active* tables alone. For a reverse
multi-entity pair `A.fn` / `B.gn` over table `t` with well-formed
active tables and no pre-existing pivot table, the persisted pivot
table holds exactly the rows emitted by records of the two active
tables — a retired-only entity contributes no row. (The claim's
further inference, that a retired entity is therefore absent from
every partner's reconstructed link field after the next durability
cycle, is false: an *active* record whose own field value still holds
the retired entity's handle re-emits that row, see the
counterexample.) -/
theorem C4_amended (A B fn gn t : String)
    (hAB : A ≠ B) (htA : t ≠ A) (htB : t ≠ B)
    (hks : (B ++ "." ++ gn) ≠ (A ++ "." ++ fn))
    {data : Data}
    (hWA : tableWF fn B ((alGet A data).getD []))
    (hWB : tableWF gn A ((alGet B data).getD []))
    (htN : alGet t data = none) :
    ∃ dw R,
      write [A, B] [multiSpec A fn B gn t, multiSpec B gn A fn t] data = .ok dw ∧
      ((R = [] ∧ alGet t dw = none) ∨ alGet t dw = some (rowsToTable R)) ∧
      ∀ a b : Int, (rowAt A fn B gn a b ∈ R ↔
        emitsLink fn B ((alGet A data).getD []) a b ∨
        emitsLink gn A ((alGet B data).getD []) b a) := by
  obtain ⟨dw, R, hw, -, hmemR, hpiv, -, -, -⟩ :=
    writeAB_char A B fn gn t hAB htA htB hks hWA hWB htN
  exact ⟨dw, R, hw, hpiv, hmemR⟩

/-- On the concrete store where the only `B`-record with id 9 lives in
the Retired table while the active `A`-record 1 still lists its handle
in the multi-entity field `f`, a full durability cycle reconstructs
`f` of `A`-record 1 with the retired entity's handle still present:
retirement alone does not remove an entity from its partners'
rebuilt link fields. -/
theorem C4_counterexample :
    (flushData ["A", "B"]
        [multiSpec "A" "f" "B" "g" "rel", multiSpec "B" "g" "A" "f" "rel"]
        [("A", [("1", [("id", Value.int 1), ("type", Value.str "A"),
                        ("f", linksVal "B" [9])])]),
         ("B", []),
         ("Retired:B", [("9", [("id", Value.int 9), ("type", Value.str "B")])])]).map
      (fun df => linkFieldContainsB (recAt df "A" "1") "f" "B" 9) = .ok true := by
  rfl

/-- The amended row-origin theorem applied to the concrete store of
the counterexample: the pivot row pairing `B` id 9 with `A` id 1 is
present exactly because the active `A`-record emits it. -/
theorem C4_amended_witness :
    ∃ dw R,
      write ["A", "B"] [multiSpec "A" "f" "B" "g" "rel", multiSpec "B" "g" "A" "f" "rel"]
        [("A", [("1", [("id", Value.int 1), ("type", Value.str "A"),
                        ("f", linksVal "B" [9])])]),
         ("B", []),
         ("Retired:B", [("9", [("id", Value.int 9), ("type", Value.str "B")])])] =
        .ok dw ∧
      ((R = [] ∧ alGet "rel" dw = none) ∨ alGet "rel" dw = some (rowsToTable R)) ∧
      (rowAt "A" "f" "B" "g" 9 1 ∈ R ↔
        emitsLink "f" "B" [("1", [("id", Value.int 1), ("type", Value.str "A"),
          ("f", linksVal "B" [9])])] 9 1 ∨
        emitsLink "g" "A" [] 1 9) := by
  obtain ⟨dw, R, hw, hpiv, hmem⟩ :=
    @C4_amended "A" "B" "f" "g" "rel" (by decide) (by decide) (by decide) (by decide)
      [("A", [("1", [("id", Value.int 1), ("type", Value.str "A"),
                      ("f", linksVal "B" [9])])]),
       ("B", []),
       ("Retired:B", [("9", [("id", Value.int 9), ("type", Value.str "B")])])]
      (by
        intro p hp
        have hp2 : p ∈ [(("1" : String),
            [("id", Value.int 1), ("type", Value.str "A"), ("f", linksVal "B" [9])])] := hp
        rw [List.mem_singleton] at hp2
        subst hp2
        exact ⟨⟨1, rfl, fun _ => rfl⟩, fun _ => ⟨by decide, Or.inr ⟨[9], rfl⟩⟩⟩)
      (by
        intro p hp
        cases hp)
      rfl
  exact ⟨dw, R, hw, hpiv, hmem 9 1⟩

/-! ## Lemmas: ordered-dict handle lists -/

/-- C9 (amended): for a field spec of declared type enum, validate_spec
succeeds iff a `values` key is present and any declared *truthy*
default satisfies Python membership in the values list. (The claim's
stronger reading is false: an empty values list passes, and a falsy
non-member default — the empty string, False, 0 — passes, see the
counterexample.) -/
theorem C9_amended (p : FieldSpec) (he : p.ftype = some "enum") :
    validate_spec p = .ok () ↔
      ∃ vs, p.values = some vs ∧
        ∀ d, p.dflt = some d → d.truthy = true →
          (vs.any fun v => pyEq d (.vprim v)) = true := by
  have hsub : strContainsSub dataTypesStr "enum" = true := by decide
  have hft : field_type p = .ok "enum" := by
    simp [field_type, he, hsub]
  simp only [validate_spec, hft, exceptOkBind]
  show validate_enum p = .ok () ↔ _
  unfold validate_enum
  cases hv : p.values with
  | none =>
      simp only
      constructor
      · intro h
        cases h
      · rintro ⟨vs, hvs, -⟩
        cases hvs
  | some vs =>
      cases hd : p.dflt with
      | none =>
          simp only
          constructor
          · intro _
            exact ⟨vs, rfl, fun d hdd => by cases hdd⟩
          · intro _
            trivial
      | some d =>
          simp only
          constructor
          · intro h
            refine ⟨vs, rfl, fun d2 hd2 ht => ?_⟩
            have hdd : d2 = d := (Option.some.inj hd2).symm
            by_cases ha : (vs.any fun v => pyEq d (.vprim v)) = true
            · rw [hdd]
              exact ha
            · rw [hdd] at ht
              rw [if_pos (by simp [ht, ha])] at h
              cases h
          · rintro ⟨vs2, hvs2, hmem⟩
            have hveq : vs2 = vs := (Option.some.inj hvs2).symm
            by_cases ht : d.truthy = true
            · have := hmem d rfl ht
              rw [hveq] at this
              rw [if_neg (by simp [this])]
            · rw [if_neg (by simp [ht])]

/-- The code accepts enum field specs the claim says it must reject:
an enum spec whose `values` list is empty validates, and an enum spec
whose declared default is falsy and not among the values validates —
while the claim's success condition (nonempty values, default a
member) is false for both. -/
theorem C9_counterexample :
    (validate_spec { ftype := some "enum", values := some [] } = .ok () ∧
      enumSpecOkClaimed { ftype := some "enum", values := some [] } = false) ∧
    (validate_spec { ftype := some "enum", values := some [Prim.pstr "a"], dflt := some (Value.str "") } = .ok () ∧
      enumSpecOkClaimed { ftype := some "enum", values := some [Prim.pstr "a"], dflt := some (Value.str "") } = false) := by
  exact ⟨⟨rfl, rfl⟩, ⟨rfl, rfl⟩⟩

/-- The amended enum validation equivalence at a concrete spec: an
enum spec with values [a] and default a validates. -/
theorem C9_amended_witness :
    validate_spec { ftype := some "enum", values := some [Prim.pstr "a"], dflt := some (Value.str "a") } = .ok () := by
  refine (C9_amended _ rfl).mpr ⟨[Prim.pstr "a"], rfl, ?_⟩
  intro d hd ht
  have hdd : d = Value.str "a" := Option.some.inj hd.symm
  rw [hdd]
  rfl

/-- C2: the Link Integrity Manager does not add the updated entity's
handle to the reverse field of an added target. On a store holding
`A`-record 1 and `B`-record 2 with no links, routing a multi-entity
update that adds the handle of `B`-record 2 to field `f` of `A`-record
1 through `__update_multi_entity_link_field` leaves the cache with
`f` of `A`-record 1 set but with *no* `g` on `B`-record 2: the add
loop of `__unlink_entity_from` builds the appended reverse value and
drops it, so the materialized view is not symmetric before the next
durability cycle. -/
theorem C2_bug_eval :
    (update_multi_entity_link_field
        [multiSpec "A" "f" "B" "g" "rel", multiSpec "B" "g" "A" "f" "rel"]
        (some ("A", "1"))
        [("A", [("1", [("id", Value.int 1), ("type", Value.str "A")])]),
         ("B", [("2", [("id", Value.int 2), ("type", Value.str "B")])])]
        [("id", Value.int 1), ("type", Value.str "A")]
        (multiSpec "A" "f" "B" "g" "rel") [hndl "B" 2] none).map (fun r =>
      (alGet "f" (recAt r.2 "A" "1"), alGet "g" (recAt r.2 "B" "2"))) =
      .ok (some (linksVal "B" [2]), none) := by
  rfl

theorem prune_multi_items_char (cache : Data) (L : String) (ms : List Int)
    (acc : List Item) :
    prune_multi_items cache acc (ms.map fun mm => Item.idict (hndl L mm)) =
      .ok (acc ++ (ms.filter fun mm => hasEntity cache L (toString mm) false).map
        fun mm => Item.idict (hndl L mm)) := by
  induction ms generalizing acc with
  | nil => simp [prune_multi_items]
  | cons m rest ih =>
      simp only [List.map_cons, prune_multi_items, alGet_hndl_type, alGet_hndl_id,
        exceptOkBind, pyStrOfPrim, List.filter_cons]
      by_cases h : hasEntity cache L (toString m) false = true
      · rw [if_pos h, if_pos (by simp [h]), ih]
        simp
      · rw [if_neg h, if_neg (by simp [h]), ih]

/-- C3 (amended): revive's link pruning consults `__has_entity`, which
reads the *Active* table only. For the retired record being revived:
an entity-typed link to `(L, m)` is kept iff the Active table of `L`
holds a non-empty record under key `m`, and dropped otherwise — even
when the target still exists in the Retired state; a multi-entity
field keeps exactly the entries whose targets pass the same
Active-only test, and is removed when none survive. -/
theorem C3_amended (cache : Data) (T fn L rf t : String) (e : Rec) :
    (∀ m : Int, alGet fn e = some (.vdict (hndl L m)) →
      prune_link_field cache e (entitySpec T fn L rf t) =
        .ok (if hasEntity cache L (toString m) false then e else alPop fn e)) ∧
    (∀ ms : List Int, alGet fn e = some (linksVal L ms) →
      prune_link_field cache e (multiSpec T fn L rf t) =
        .ok (if (ms.filter fun mm => hasEntity cache L (toString mm) false).isEmpty then
          alPop fn e
        else
          alSet fn (linksVal L (ms.filter fun mm => hasEntity cache L (toString mm) false)) e)) := by
  constructor
  · intro m hm
    unfold prune_link_field
    rw [if_pos (show (entitySpec T fn L rf t).ftype = some "entity" from rfl),
      show (entitySpec T fn L rf t).name = fn from rfl, hm]
    simp only [alGet_hndl_type, alGet_hndl_id, exceptOkBind, pyStrOfPrim]
    by_cases h : hasEntity cache L (toString m) false = true
    · rw [if_pos h, if_pos h]
    · rw [if_neg h, if_neg h]
  · intro ms hm
    unfold prune_link_field
    rw [if_neg (show ¬ (multiSpec T fn L rf t).ftype = some "entity" from
        fun h => absurd (Option.some.inj h) (by decide)),
      if_pos (show (multiSpec T fn L rf t).ftype = some "multi_entity" from rfl),
      show (multiSpec T fn L rf t).name = fn from rfl, hm,
      show linksVal L ms = Value.vlist (ms.map fun mm => Item.idict (hndl L mm)) from rfl]
    simp only [exceptOkBind]
    rw [prune_multi_items_char cache L ms []]
    simp only [List.nil_append, exceptOkBind]
    by_cases h : (ms.filter fun mm => hasEntity cache L (toString mm) false).isEmpty = true
    · have hf : (ms.filter fun mm => hasEntity cache L (toString mm) false) = [] := by
        simpa using h
      rw [if_pos h, hf]
      rfl
    · rw [if_neg h]
      rcases hf : ms.filter fun mm => hasEntity cache L (toString mm) false with _ | ⟨a, b⟩
      · rw [hf] at h
        simp at h
      · rfl

/-- On the concrete store whose only copy of `B`-record 9 lives in the
Retired table while retired `A`-record 1 links to it through the
entity field `f`: revive("A", 1) succeeds but drops the link — the
target existed in the Retired state, where the claim says the link
must be kept. -/
theorem C3_counterexample :
    (revive ["A", "B"] [entitySpec "A" "f" "B" "g" "rel", multiSpec "B" "g" "A" "f" "rel"]
        ⟨[], [("A", []),
              ("Retired:A", [("1", [("id", Value.int 1), ("type", Value.str "A"),
                ("f", Value.vdict (hndl "B" 9))])]),
              ("B", []),
              ("Retired:B", [("9", [("id", Value.int 9), ("type", Value.str "B")])])]⟩
        "A" 1).map (fun r =>
      (r.1, alGet "f" (recAt r.2.cache "A" "1"), (recAt r.2.cache "A" "1").isEmpty)) =
      .ok (true, none, false) ∧
    hasEntity [("Retired:B", [("9", [("id", Value.int 9), ("type", Value.str "B")])])]
      "B" "9" true = true := by
  exact ⟨rfl, rfl⟩

/-- The amended pruning law at a concrete cache: an entity link whose
target has an active record is kept, one whose target has none is
dropped; a multi-entity list keeps exactly the confirmed entries. -/
theorem C3_amended_witness :
    prune_link_field [("B", [("7", [("id", Value.int 7)])])]
        [("f", Value.vdict (hndl "B" 7))] (entitySpec "A" "f" "B" "g" "rel") =
      .ok [("f", Value.vdict (hndl "B" 7))] ∧
    prune_link_field [("B", [("7", [("id", Value.int 7)])])]
        [("f", linksVal "B" [7, 8])] (multiSpec "A" "f" "B" "g" "rel") =
      .ok [("f", linksVal "B" [7])] := by
  constructor
  · have h := (C3_amended [("B", [("7", [("id", Value.int 7)])])] "A" "f" "B" "g" "rel"
      [("f", Value.vdict (hndl "B" 7))]).1 7 rfl
    rw [h]
    rfl
  · have h := (C3_amended [("B", [("7", [("id", Value.int 7)])])] "A" "f" "B" "g" "rel"
      [("f", linksVal "B" [7, 8])]).2 [7, 8] rfl
    rw [h]
    rfl

/-- C8: the boolean/error protocol of delete and revive. With the
entity type registered: delete on an id whose non-empty record exists
only in the Retired state returns False and leaves the database
untouched; revive on an id whose non-empty record exists in the
Active state returns False and leaves the database untouched; and
when neither state holds a non-empty record for the id, both
operations fail with EntityNotFound instead of returning a boolean. -/
theorem C8_protocol (schema : List String) (fields : List FieldSpec) (st : DBState)
    (tp : String) (eid : Int) (hs : schema.contains tp = true) :
    (∀ r, orNone (getEntityRaw st.cache tp (toString eid) false) = none →
      orNone (getEntityRaw st.cache tp (toString eid) true) = some r →
      delete schema fields st tp eid = .ok (false, st)) ∧
    (∀ r, orNone (getEntityRaw st.cache tp (toString eid) false) = some r →
      revive schema fields st tp eid = .ok (false, st)) ∧
    (orNone (getEntityRaw st.cache tp (toString eid) false) = none →
      orNone (getEntityRaw st.cache tp (toString eid) true) = none →
      delete schema fields st tp eid = .error
        (.entityNotFound "A(n) 'f{entity_type}' entity for id f{entity_id} does not exist.") ∧
      revive schema fields st tp eid = .error
        (.entityNotFound "A(n) 'f{entity_type}' entity for id f{entity_id} does not exist.")) := by
  refine ⟨?_, ?_, ?_⟩
  · intro r ha hr
    simp only [delete, schema_entity_read, hs, if_true, exceptOkBind, ha, hr]
  · intro r ha
    simp only [revive, schema_entity_read, hs, if_true, exceptOkBind, ha]
  · intro ha hr
    constructor
    · simp only [delete, schema_entity_read, hs, if_true, exceptOkBind, ha, hr]
    · simp only [revive, schema_entity_read, hs, if_true, exceptOkBind, ha, hr]

/-- The protocol at a concrete store: id 1 active, id 2 retired, id 3
absent. -/
theorem C8_protocol_witness :
    delete ["A"] [] ⟨[], [("A", [("1", [("id", Value.int 1)])]),
      ("Retired:A", [("2", [("id", Value.int 2)])])]⟩ "A" 2 =
      .ok (false, ⟨[], [("A", [("1", [("id", Value.int 1)])]),
        ("Retired:A", [("2", [("id", Value.int 2)])])]⟩) ∧
    revive ["A"] [] ⟨[], [("A", [("1", [("id", Value.int 1)])]),
      ("Retired:A", [("2", [("id", Value.int 2)])])]⟩ "A" 1 =
      .ok (false, ⟨[], [("A", [("1", [("id", Value.int 1)])]),
        ("Retired:A", [("2", [("id", Value.int 2)])])]⟩) ∧
    delete ["A"] [] ⟨[], [("A", [("1", [("id", Value.int 1)])]),
      ("Retired:A", [("2", [("id", Value.int 2)])])]⟩ "A" 3 =
      .error (.entityNotFound
        "A(n) 'f{entity_type}' entity for id f{entity_id} does not exist.") := by
  obtain ⟨h1, h2, h3⟩ :=
    C8_protocol ["A"] [] ⟨[], [("A", [("1", [("id", Value.int 1)])]),
      ("Retired:A", [("2", [("id", Value.int 2)])])]⟩ "A" 2 (by decide)
  obtain ⟨h1b, h2b, h3b⟩ :=
    C8_protocol ["A"] [] ⟨[], [("A", [("1", [("id", Value.int 1)])]),
      ("Retired:A", [("2", [("id", Value.int 2)])])]⟩ "A" 1 (by decide)
  obtain ⟨h1c, h2c, h3c⟩ :=
    C8_protocol ["A"] [] ⟨[], [("A", [("1", [("id", Value.int 1)])]),
      ("Retired:A", [("2", [("id", Value.int 2)])])]⟩ "A" 3 (by decide)
  exact ⟨h1 [("id", Value.int 2)] rfl rfl, h2b [("id", Value.int 1)] rfl,
    (h3c rfl rfl).1⟩

/-- C10: find_one evaluates find_all with the same entity type,
filters, return fields and retired_only flag and returns exactly the
head of its result list (`next(iter(results), None)`): the first
record when one exists, and null (None) when the list is empty. -/
theorem C10_find_one (fuel : Nat) (schema : List String) (fields : List FieldSpec)
    (cache : Data) (tp : String) (filters : List (List Value))
    (return_fields : Option (List String)) (retired_only : Bool) :
    find_one fuel schema fields cache tp filters return_fields retired_only =
      (find_all fuel schema fields cache tp filters return_fields retired_only).map
        List.head? := by
  unfold find_one
  cases find_all fuel schema fields cache tp filters return_fields retired_only <;> rfl

/-- C7: on the schema `Asset`/`Shot` with the multi-entity field
`Asset.shots` (link `Shot`) and text field `Shot.code`, where Asset 1
holds the handle of Shot 1 and Shot 1's code is "0010": resolving the
deep filter `[shots.Shot.code, is, 0010]` does produce the claimed
singleton replacement `[shots, is, {type: Shot, id: 1}]` — but running
find_all with the deep filter returns 0 records, while the manual
target-set query `[shots, in, [{type: Shot, id: 1}]]` over the same
matches returns the 1 record the claim requires. The replacement `is`
filter tests the stored handle *list* of the multi-entity field
against a single handle dictionary with `operator.eq`, which is always
false, so the claimed equivalence with the manual resolution fails on
multi-entity fields whenever the sub-query yields exactly one handle. -/
theorem C7_bug_eval :
    resolve_filters 10 ["Asset", "Shot"]
      [{ entity_type := "Asset", name := "shots", ftype := some "multi_entity",
         link := ["Shot"], table := some "asset_shots" },
       { entity_type := "Shot", name := "code", ftype := some "text" }]
      [("Asset", [("1", [("shots", Value.vlist [Item.idict (hndl "Shot" 1)])])]),
       ("Shot", [("1", [("code", Value.str "0010")])])]
      "Asset" [[Value.str "shots.Shot.code", Value.str "is", Value.str "0010"]] =
      Except.ok [[Value.str "shots", Value.str "is", Value.vdict (hndl "Shot" 1)]] ∧
    (find_all 10 ["Asset", "Shot"]
      [{ entity_type := "Asset", name := "shots", ftype := some "multi_entity",
         link := ["Shot"], table := some "asset_shots" },
       { entity_type := "Shot", name := "code", ftype := some "text" }]
      [("Asset", [("1", [("shots", Value.vlist [Item.idict (hndl "Shot" 1)])])]),
       ("Shot", [("1", [("code", Value.str "0010")])])]
      "Asset" [[Value.str "shots.Shot.code", Value.str "is", Value.str "0010"]]
      none false).map List.length = Except.ok 0 ∧
    (find_all 10 ["Asset", "Shot"]
      [{ entity_type := "Asset", name := "shots", ftype := some "multi_entity",
         link := ["Shot"], table := some "asset_shots" },
       { entity_type := "Shot", name := "code", ftype := some "text" }]
      [("Asset", [("1", [("shots", Value.vlist [Item.idict (hndl "Shot" 1)])])]),
       ("Shot", [("1", [("code", Value.str "0010")])])]
      "Asset" [[Value.str "shots", Value.str "in",
        Value.vlist [Item.idict (hndl "Shot" 1)]]]
      none false).map List.length = Except.ok 1 := by
  refine ⟨rfl, rfl, rfl⟩

end TinySG
